import Mathlib

/-!
Verification of the crop-rotation engine (`rotation_engine.py`, `routes/cycle.py`).

The Python code is shallowly embedded: pure functions become Lean functions,
the SQLite store becomes an explicit `Store` record, SQL queries become list
operations, and the two public operations (`generate_next_cycle`,
`assign_crops`) become functions from `Store` to `Store` together with an
explicit result value.  Python floats (the SQLite `REAL` percentages) are
modelled as exact rationals; every arithmetic operation the code performs on
them is embedded as exact integer arithmetic on numerator and denominator so
that all definitions evaluate inside the kernel, and bridge lemmas identify
those operations with `Int.floor` / `Int.fract` on `ℚ`.
-/

namespace CropRotation

/-! ## Distribution Resolver — `resolve_distribution` (rotation_engine.py 225-266)

`math.floor(pct * total_beds / 100.0)` is embedded as `floorPct`, and the
fractional part `raw - math.floor(raw)` as the exact fraction
`fracNum / fracDen`; `fracGe` is the descending order used by
`fractions.sort(reverse=True)` on `(frac, i)` pairs, with rational order
realised by cross-multiplication.  The sort keys are injective (the index `i`
is part of the key), so every sorting algorithm yields the same list as
the Python stable sort; we use `List.insertionSort`. -/

/-- Python `math.floor(pct * total / 100.0)` (exact rational semantics). -/
def floorPct (pct : ℚ) (total : ℕ) : ℤ :=
  (pct.num * total) / ((pct.den * 100 : ℕ) : ℤ)

/-- Numerator of the fractional part `pct*total/100 - floor(pct*total/100)`
over the denominator `fracDen pct`. -/
def fracNum (pct : ℚ) (total : ℕ) : ℤ :=
  (pct.num * total) % ((pct.den * 100 : ℕ) : ℤ)

/-- Denominator of the fractional part of `pct*total/100`. -/
def fracDen (pct : ℚ) : ℕ :=
  pct.den * 100

/-- The descending lexicographic order on `((fracNum, fracDen), index)` pairs
used by `fractions.sort(reverse=True)`: `a` precedes `b` iff the fraction of `a` is
larger, or the fractions are equal and the index of `a` is larger. -/
def fracGe (a b : (ℤ × ℕ) × ℕ) : Prop :=
  b.1.1 * a.1.2 < a.1.1 * b.1.2 ∨ (a.1.1 * b.1.2 = b.1.1 * a.1.2 ∧ b.2 ≤ a.2)

instance : DecidableRel fracGe := fun a b => by
  unfold fracGe; infer_instance

/-- Python `result[idx][1] += 1`. -/
def bump : List (ℕ × ℤ) → ℕ → List (ℕ × ℤ)
  | [], _ => []
  | x :: xs, 0 => (x.1, x.2 + 1) :: xs
  | x :: xs, n + 1 => x :: bump xs n

/-- The local variable `result` of `resolve_distribution` before remainder
distribution: provisional floor counts. -/
def resolveFloors (percentages : List (ℕ × ℚ)) (total_beds : ℕ) :
    List (ℕ × ℤ) :=
  percentages.map (fun p => (p.1, floorPct p.2 total_beds))

/-- The local variable `remainder = total_beds - allocated`. -/
def resolveRemainder (percentages : List (ℕ × ℚ)) (total_beds : ℕ) : ℤ :=
  (total_beds : ℤ) - ((resolveFloors percentages total_beds).map (·.2)).sum

/-- The local variable `fractions`: `(fractional part, index)` pairs, the
fraction kept as an exact `(numerator, denominator)` pair. -/
def resolveFractions (percentages : List (ℕ × ℚ)) (total_beds : ℕ) :
    List ((ℤ × ℕ) × ℕ) :=
  percentages.enum.map
    (fun ip => ((fracNum ip.2.2 total_beds, fracDen ip.2.2), ip.1))

/-- `fractions.sort(reverse=True)` — the sort keys are injective, so the
result is the unique `fracGe`-sorted permutation. -/
def resolveSorted (percentages : List (ℕ × ℚ)) (total_beds : ℕ) :
    List ((ℤ × ℕ) × ℕ) :=
  List.insertionSort fracGe (resolveFractions percentages total_beds)

/-- `resolve_distribution(percentages, total_beds)` — convert percentage
targets to absolute bed counts (rotation_engine.py 225-266). -/
def resolve_distribution (percentages : List (ℕ × ℚ)) (total_beds : ℕ) :
    List (ℕ × ℤ) :=
  if percentages.isEmpty ∨ total_beds = 0 then
    percentages.map (fun p => (p.1, 0))
  else if 0 < resolveRemainder percentages total_beds then
    (((resolveSorted percentages total_beds).take
        (min (resolveRemainder percentages total_beds).toNat
          (resolveFractions percentages total_beds).length)).map (·.2)).foldl
      bump (resolveFloors percentages total_beds)
  else
    resolveFloors percentages total_beds

/-! ### Bridge lemmas: the integer arithmetic agrees with `ℚ` -/

theorem fracDen_pos (pct : ℚ) : 0 < fracDen pct :=
  Nat.mul_pos pct.den_pos (by norm_num)

theorem pct_mul_div_eq (pct : ℚ) (total : ℕ) :
    pct * total / 100 =
      ((pct.num * total : ℤ) : ℚ) / (((pct.den * 100 : ℕ) : ℤ) : ℚ) := by
  have hd : ((pct.den : ℚ)) ≠ 0 := by
    exact_mod_cast pct.den_pos.ne.symm
  conv_lhs => rw [← Rat.num_div_den pct]
  push_cast
  field_simp

theorem floorPct_eq_floor (pct : ℚ) (total : ℕ) :
    floorPct pct total = ⌊pct * total / 100⌋ := by
  rw [pct_mul_div_eq]
  rw [show (((pct.den * 100 : ℕ) : ℤ) : ℚ) = ((pct.den * 100 : ℕ) : ℚ) by
    push_cast; ring]
  rw [Rat.floor_intCast_div_natCast (pct.num * total) (pct.den * 100)]
  rfl

theorem fract_eq_fracNum_div (pct : ℚ) (total : ℕ) :
    Int.fract (pct * total / 100) =
      ((fracNum pct total : ℚ) / (fracDen pct : ℚ)) := by
  have hb0 : (0 : ℤ) < ((pct.den * 100 : ℕ) : ℤ) := by
    exact_mod_cast fracDen_pos pct
  have hbq : (((pct.den * 100 : ℕ) : ℤ) : ℚ) ≠ 0 := by
    exact_mod_cast hb0.ne.symm
  rw [Int.fract, ← floorPct_eq_floor, pct_mul_div_eq]
  rw [show ((floorPct pct total : ℤ) : ℚ) =
      ((((pct.num * total) / ((pct.den * 100 : ℕ) : ℤ) : ℤ) : ℚ)) from rfl]
  rw [fracNum, fracDen]
  rw [show ((pct.den * 100 : ℕ) : ℚ) = (((pct.den * 100 : ℕ) : ℤ) : ℚ) by
    push_cast; ring]
  rw [eq_div_iff hbq, sub_mul, div_mul_cancel₀ _ hbq]
  rw [Int.emod_def]
  push_cast
  ring

/-! ### Structural lemmas about `bump` -/

theorem bump_length (l : List (ℕ × ℤ)) (i : ℕ) : (bump l i).length = l.length := by
  induction l generalizing i with
  | nil => simp [bump]
  | cons x xs ih =>
      cases i with
      | zero => simp [bump]
      | succ n => simp [bump, ih]

theorem bump_sum (l : List (ℕ × ℤ)) (i : ℕ) (h : i < l.length) :
    ((bump l i).map (·.2)).sum = (l.map (·.2)).sum + 1 := by
  induction l generalizing i with
  | nil => simp at h
  | cons x xs ih =>
      cases i with
      | zero => simp [bump]; ring
      | succ n =>
          simp only [bump, List.map_cons, List.sum_cons]
          rw [ih n (by simpa using h)]
          ring

theorem bump_nonneg (l : List (ℕ × ℤ)) (i : ℕ)
    (h : ∀ x ∈ l, 0 ≤ x.2) : ∀ x ∈ bump l i, 0 ≤ x.2 := by
  induction l generalizing i with
  | nil => simp [bump]
  | cons y xs ih =>
      cases i with
      | zero =>
          intro x hx
          rcases List.mem_cons.mp hx with hx | hx
          · have hy := h y (by simp)
            have : x.2 = y.2 + 1 := by rw [hx]
            omega
          · exact h x (List.mem_cons_of_mem _ hx)
      | succ n =>
          intro x hx
          rcases List.mem_cons.mp hx with hx | hx
          · exact hx ▸ h y (by simp)
          · exact ih n (fun z hz => h z (List.mem_cons_of_mem _ hz)) x hx

theorem foldl_bump_length (ix : List ℕ) (l : List (ℕ × ℤ)) :
    (ix.foldl bump l).length = l.length := by
  induction ix generalizing l with
  | nil => rfl
  | cons i t ih => simp [List.foldl_cons, ih, bump_length]

theorem foldl_bump_sum (ix : List ℕ) (l : List (ℕ × ℤ))
    (h : ∀ i ∈ ix, i < l.length) :
    ((ix.foldl bump l).map (·.2)).sum = (l.map (·.2)).sum + ix.length := by
  induction ix generalizing l with
  | nil => simp
  | cons i t ih =>
      simp only [List.foldl_cons, List.length_cons]
      rw [ih (bump l i) (fun j hj => by
        rw [bump_length]; exact h j (List.mem_cons_of_mem _ hj))]
      rw [bump_sum l i (h i (by simp))]
      push_cast
      ring

theorem foldl_bump_nonneg (ix : List ℕ) (l : List (ℕ × ℤ))
    (h : ∀ x ∈ l, 0 ≤ x.2) : ∀ x ∈ ix.foldl bump l, 0 ≤ x.2 := by
  induction ix generalizing l with
  | nil => exact h
  | cons i t ih => exact ih (bump l i) (bump_nonneg l i h)

/-! ### Arithmetic facts about floors and fractional parts -/

theorem list_sum_map_sub {α : Type} (l : List α) (f g : α → ℚ) :
    (l.map (fun x => f x - g x)).sum = (l.map f).sum - (l.map g).sum := by
  induction l with
  | nil => simp
  | cons x t ih => simp [ih]; ring

theorem list_sum_lt_length (l : List ℚ) (h : ∀ x ∈ l, x < 1) (hne : l ≠ []) :
    l.sum < l.length := by
  induction l with
  | nil => simp at hne
  | cons x t ih =>
      rcases eq_or_ne t [] with rfl | hte
      · simpa using h x (by simp)
      · have h1 := h x (by simp)
        have h2 := ih (fun y hy => h y (List.mem_cons_of_mem _ hy)) hte
        simp only [List.sum_cons, List.length_cons]
        push_cast
        linarith

/-- The sum of the raw shares `pct*total/100` is exactly `total` when the
percentages sum to 100. -/
theorem sum_raw_eq (ps : List (ℕ × ℚ)) (total : ℕ)
    (hsum : (ps.map (·.2)).sum = 100) :
    (ps.map (fun p => (p.2 * total / 100 : ℚ))).sum = (total : ℚ) := by
  have h : (ps.map (fun p => (p.2 * total / 100 : ℚ))).sum
      = (ps.map (·.2)).sum * ((total : ℚ) / 100) := by
    rw [← List.sum_map_mul_right]
    congr 1
    apply List.map_congr_left
    intro p _
    ring
  rw [h, hsum]
  field_simp

/-- Cast of the allocated total to `ℚ` is the sum of the floors. -/
theorem cast_alloc_eq (ps : List (ℕ × ℚ)) (total : ℕ) :
    (((ps.map (fun p => floorPct p.2 total)).sum : ℤ) : ℚ)
      = (ps.map (fun p => ((floorPct p.2 total : ℤ) : ℚ))).sum := by
  induction ps with
  | nil => simp
  | cons p t ih => push_cast [List.map_cons, List.sum_cons] at ih ⊢; rw [ih]

/-- Bounds on the shortfall `total - allocated`: nonnegative and strictly
less than the number of items, provided the percentages sum to 100. -/
theorem remainder_bounds (ps : List (ℕ × ℚ)) (total : ℕ)
    (hsum : (ps.map (·.2)).sum = 100) (hne : ps ≠ []) :
    0 ≤ (total : ℤ) - (ps.map (fun p => floorPct p.2 total)).sum ∧
      (total : ℤ) - (ps.map (fun p => floorPct p.2 total)).sum
        < (ps.length : ℤ) := by
  have key : (((total : ℤ) - (ps.map (fun p => floorPct p.2 total)).sum : ℤ) : ℚ)
      = (ps.map (fun p => Int.fract (p.2 * (total : ℚ) / 100))).sum := by
    push_cast
    rw [List.map_map]
    rw [show (ps.map (fun p => Int.fract (p.2 * (total : ℚ) / 100)))
        = ps.map (fun p => p.2 * total / 100 - ((floorPct p.2 total : ℤ) : ℚ)) by
      apply List.map_congr_left
      intro p _
      rw [Int.fract, floorPct_eq_floor]]
    rw [list_sum_map_sub, sum_raw_eq ps total hsum]
    simp [Function.comp_def]
  constructor
  · have h1 : (0 : ℚ) ≤ (((total : ℤ) - (ps.map (fun p => floorPct p.2 total)).sum : ℤ) : ℚ) := by
      rw [key]
      exact List.sum_nonneg (by
        intro x hx
        obtain ⟨p, _, rfl⟩ := List.mem_map.mp hx
        exact Int.fract_nonneg _)
    exact_mod_cast h1
  · have h2 : (((total : ℤ) - (ps.map (fun p => floorPct p.2 total)).sum : ℤ) : ℚ)
        < (ps.length : ℚ) := by
      rw [key]
      have := list_sum_lt_length (ps.map (fun p => Int.fract (p.2 * (total : ℚ) / 100)))
        (by
          intro x hx
          obtain ⟨p, _, rfl⟩ := List.mem_map.mp hx
          exact Int.fract_lt_one _)
        (by simpa using hne)
      simpa using this
    exact_mod_cast h2

/-! ### Properties of `resolve_distribution` -/

theorem resolveFloors_snd (ps : List (ℕ × ℚ)) (total : ℕ) :
    (resolveFloors ps total).map (·.2) = ps.map (fun p => floorPct p.2 total) := by
  simp [resolveFloors, List.map_map]

theorem resolveFloors_length (ps : List (ℕ × ℚ)) (total : ℕ) :
    (resolveFloors ps total).length = ps.length := by
  simp [resolveFloors]

theorem resolveFractions_length (ps : List (ℕ × ℚ)) (total : ℕ) :
    (resolveFractions ps total).length = ps.length := by
  simp [resolveFractions, List.enum_length]

theorem resolveSorted_perm (ps : List (ℕ × ℚ)) (total : ℕ) :
    (resolveSorted ps total).Perm (resolveFractions ps total) :=
  List.perm_insertionSort fracGe _

theorem resolveFractions_snd_lt (ps : List (ℕ × ℚ)) (total : ℕ) :
    ∀ x ∈ resolveFractions ps total, x.2 < ps.length := by
  intro x hx
  obtain ⟨ip, hip, rfl⟩ := List.mem_map.mp hx
  exact (List.mem_enum hip).1

theorem resolve_distribution_nonneg (ps : List (ℕ × ℚ)) (total : ℕ)
    (hpos : ∀ p ∈ ps, 0 ≤ p.2) :
    ∀ q ∈ resolve_distribution ps total, 0 ≤ q.2 := by
  have hfl : ∀ q ∈ resolveFloors ps total, 0 ≤ q.2 := by
    intro q hq
    obtain ⟨p, hp, rfl⟩ := List.mem_map.mp hq
    show (0 : ℤ) ≤ floorPct p.2 total
    rw [floorPct_eq_floor, Int.floor_nonneg]
    have hp2 := hpos p hp
    positivity
  intro q hq
  rw [resolve_distribution] at hq
  split at hq
  · obtain ⟨p, hp, rfl⟩ := List.mem_map.mp hq
    simp
  · split at hq
    · exact foldl_bump_nonneg _ _ hfl q hq
    · exact hfl q hq

/-- The resolved counts sum to exactly `total_beds` when the percentages sum
to 100. -/
theorem resolve_distribution_sum (ps : List (ℕ × ℚ)) (total : ℕ)
    (hsum : (ps.map (·.2)).sum = 100) :
    ((resolve_distribution ps total).map (·.2)).sum = total := by
  by_cases hc : ps.isEmpty ∨ total = 0
  · rcases hc with hc | hc
    · rw [List.isEmpty_iff] at hc
      subst hc
      simp at hsum
    · subst hc
      simp [resolve_distribution, List.map_map, Function.comp_def]
  · push_neg at hc
    obtain ⟨hne0, h0⟩ := hc
    have hne : ps ≠ [] := by
      intro h
      rw [h] at hne0
      simp at hne0
    have hb := remainder_bounds ps total hsum hne
    rw [← resolveFloors_snd] at hb
    rw [show (total : ℤ) - ((resolveFloors ps total).map (·.2)).sum
        = resolveRemainder ps total from rfl] at hb
    rw [resolve_distribution, if_neg (by simp [hne, h0])]
    by_cases h2 : 0 < resolveRemainder ps total
    · rw [if_pos h2]
      have hlen : (resolveFractions ps total).length = ps.length :=
        resolveFractions_length ps total
      have hslen : (resolveSorted ps total).length = ps.length :=
        (resolveSorted_perm ps total).length_eq.trans hlen
      have hk : min (resolveRemainder ps total).toNat
          (resolveFractions ps total).length = (resolveRemainder ps total).toNat := by
        rw [hlen]
        omega
      have hix : ∀ i ∈ ((resolveSorted ps total).take
          (min (resolveRemainder ps total).toNat
            (resolveFractions ps total).length)).map (·.2),
          i < (resolveFloors ps total).length := by
        intro i hi
        obtain ⟨x, hx, rfl⟩ := List.mem_map.mp hi
        have hx2 : x ∈ resolveSorted ps total := List.mem_of_mem_take hx
        have hx3 : x ∈ resolveFractions ps total :=
          ((resolveSorted_perm ps total).mem_iff).mp hx2
        rw [resolveFloors_length]
        exact resolveFractions_snd_lt ps total x hx3
      rw [foldl_bump_sum _ _ hix]
      have htL : (((resolveSorted ps total).take
          (min (resolveRemainder ps total).toNat
            (resolveFractions ps total).length)).map (·.2)).length
          = (resolveRemainder ps total).toNat := by
        rw [List.length_map, List.length_take, hk, hslen]
        omega
      rw [htL, resolveFloors_snd]
      have hR : resolveRemainder ps total
          = (total : ℤ) - (ps.map (fun p => floorPct p.2 total)).sum := by
        rw [resolveRemainder, resolveFloors_snd]
      omega
    · rw [if_neg h2, resolveFloors_snd]
      have hR : resolveRemainder ps total
          = (total : ℤ) - (ps.map (fun p => floorPct p.2 total)).sum := by
        rw [resolveRemainder, resolveFloors_snd]
      omega

/-- C1, counterexample.  The claim quantifies over *every* list of
(item, percentage) pairs; for `[(1, 10%)]` and `total = 100` the code floors
`10` and then hands one remainder unit to the single item, returning count
`11`, whose sum is `11 ≠ 100`.  The sum-equals-total guarantee therefore does
not hold for percentage lists that do not sum to 100. -/
theorem C1_counterexample :
    resolve_distribution [(1, 10)] 100 = [(1, 11)] ∧
      ((resolve_distribution [(1, 10)] 100).map (·.2)).sum ≠ 100 := by
  constructor
  · decide
  · decide

/-- C1, amended.  For every list of (item, percentage) pairs whose
percentages are non-negative and sum to 100, and every `total ≥ 0`, the
counts returned by `resolve_distribution(percentages, total)` are
non-negative integers whose sum equals `total` exactly; if the percentage
list is empty or `total` is 0, every returned count is 0 (the non-negativity
clause needs only non-negative percentages, the exact-sum clause also needs
the percentages to sum to 100). -/
theorem C1_resolver_totals (ps : List (ℕ × ℚ)) (total : ℕ) :
    ((∀ p ∈ ps, 0 ≤ p.2) → (ps.map (·.2)).sum = 100 →
      ((resolve_distribution ps total).map (·.2)).sum = (total : ℤ) ∧
        ∀ q ∈ resolve_distribution ps total, 0 ≤ q.2) ∧
    ((ps = [] ∨ total = 0) → ∀ q ∈ resolve_distribution ps total, q.2 = 0) := by
  constructor
  · intro hpos hsum
    exact ⟨resolve_distribution_sum ps total hsum,
      resolve_distribution_nonneg ps total hpos⟩
  · intro hc q hq
    have hcc : ps.isEmpty ∨ total = 0 := by
      rcases hc with rfl | rfl
      · left; rfl
      · right; rfl
    rw [resolve_distribution, if_pos hcc] at hq
    obtain ⟨p, _, rfl⟩ := List.mem_map.mp hq
    rfl

/-- C1, witness: the amended theorem applied at `[(1, 100%)]`, `total = 7`. -/
theorem C1_witness :
    ((resolve_distribution [(1, (100 : ℚ))] 7).map (·.2)).sum = (7 : ℤ) ∧
      ∀ q ∈ resolve_distribution [(1, (100 : ℚ))] 7, 0 ≤ q.2 :=
  (C1_resolver_totals [(1, (100 : ℚ))] 7).1 (by decide) (by simp)

/-! ### The `fracGe` order versus the rational fraction values -/

/-- The rational value of a stored `(numerator, denominator)` fraction. -/
def fracVal (x : (ℤ × ℕ) × ℕ) : ℚ :=
  (x.1.1 : ℚ) / (x.1.2 : ℚ)

theorem fracGe_iff (a b : (ℤ × ℕ) × ℕ) (ha : 0 < a.1.2) (hb : 0 < b.1.2) :
    fracGe a b ↔
      (fracVal b < fracVal a ∨ (fracVal a = fracVal b ∧ b.2 ≤ a.2)) := by
  have ha2 : (0 : ℚ) < (a.1.2 : ℚ) := by exact_mod_cast ha
  have hb2 : (0 : ℚ) < (b.1.2 : ℚ) := by exact_mod_cast hb
  have hlt : fracVal b < fracVal a ↔ b.1.1 * a.1.2 < a.1.1 * b.1.2 := by
    rw [fracVal, fracVal, div_lt_div_iff₀ hb2 ha2]
    exact_mod_cast Iff.rfl
  have heq : fracVal a = fracVal b ↔ a.1.1 * b.1.2 = b.1.1 * a.1.2 := by
    rw [fracVal, fracVal, div_eq_div_iff ha2.ne.symm hb2.ne.symm]
    exact_mod_cast Iff.rfl
  rw [fracGe, hlt, heq]

theorem fracGe_total (a b : (ℤ × ℕ) × ℕ) : fracGe a b ∨ fracGe b a := by
  unfold fracGe
  rcases lt_trichotomy (b.1.1 * a.1.2) (a.1.1 * b.1.2) with h | h | h
  · exact Or.inl (Or.inl h)
  · rcases Nat.le_total b.2 a.2 with hi | hi
    · exact Or.inl (Or.inr ⟨h.symm, hi⟩)
    · exact Or.inr (Or.inr ⟨h, hi⟩)
  · exact Or.inr (Or.inl h)

theorem fracGe_trans (a b c : (ℤ × ℕ) × ℕ) (ha : 0 < a.1.2) (hb : 0 < b.1.2)
    (hc : 0 < c.1.2) (h1 : fracGe a b) (h2 : fracGe b c) : fracGe a c := by
  rw [fracGe_iff a b ha hb] at h1
  rw [fracGe_iff b c hb hc] at h2
  rw [fracGe_iff a c ha hc]
  rcases h1 with h1 | ⟨h1, h1i⟩ <;> rcases h2 with h2 | ⟨h2, h2i⟩
  · exact Or.inl (h2.trans h1)
  · exact Or.inl (h2 ▸ h1)
  · exact Or.inl (h1 ▸ h2)
  · exact Or.inr ⟨h1.trans h2, h2i.trans h1i⟩

/-- If two elements dominate each other under `fracGe`, their indices are
equal (no positivity needed: each strict case is contradictory). -/
theorem fracGe_antisymm_idx (a b : (ℤ × ℕ) × ℕ)
    (h1 : fracGe a b) (h2 : fracGe b a) : a.2 = b.2 := by
  rcases h1 with h1 | ⟨h1, h1i⟩ <;> rcases h2 with h2 | ⟨h2, h2i⟩ <;> omega

/-! ### Sortedness of the insertion sort under `fracGe` -/

theorem pairwise_orderedInsert_fracGe (a : (ℤ × ℕ) × ℕ)
    (l : List ((ℤ × ℕ) × ℕ)) (ha : 0 < a.1.2) (hl : ∀ x ∈ l, 0 < x.1.2)
    (hp : l.Pairwise fracGe) :
    (List.orderedInsert fracGe a l).Pairwise fracGe := by
  induction l with
  | nil => simp
  | cons b t ih =>
      rw [List.pairwise_cons] at hp
      obtain ⟨hbt, ht⟩ := hp
      rw [List.orderedInsert]
      split
      · rename_i hab
        rw [List.pairwise_cons]
        refine ⟨?_, List.pairwise_cons.mpr ⟨hbt, ht⟩⟩
        intro x hx
        rcases List.mem_cons.mp hx with rfl | hx
        · exact hab
        · exact fracGe_trans a b x ha (hl b (by simp))
            (hl x (List.mem_cons_of_mem _ hx)) hab (hbt x hx)
      · rename_i hab
        have hba : fracGe b a := (fracGe_total a b).resolve_left hab
        rw [List.pairwise_cons]
        constructor
        · intro x hx
          rcases (List.mem_orderedInsert (r := fracGe)).mp hx with rfl | hx
          · exact hba
          · exact hbt x hx
        · exact ih (fun x hx => hl x (List.mem_cons_of_mem _ hx)) ht

theorem pairwise_insertionSort_fracGe (l : List ((ℤ × ℕ) × ℕ))
    (hl : ∀ x ∈ l, 0 < x.1.2) :
    (List.insertionSort fracGe l).Pairwise fracGe := by
  induction l with
  | nil => simp
  | cons a t ih =>
      rw [List.insertionSort]
      apply pairwise_orderedInsert_fracGe
      · exact hl a (by simp)
      · intro x hx
        exact hl x (List.mem_cons_of_mem _
          ((List.perm_insertionSort fracGe t).mem_iff.mp hx))
      · exact ih (fun x hx => hl x (List.mem_cons_of_mem _ hx))

/-! ### Position of an element in a `fracGe`-sorted list -/

/-- In a `fracGe`-sorted list with pairwise-distinct indices, the element at
position `j` is dominated by exactly `j` elements (of different index):
the shortfall units therefore go to the `k` smallest sort positions. -/
theorem countP_pairwise_position (l : List ((ℤ × ℕ) × ℕ)) (j : ℕ)
    (hp : l.Pairwise fracGe) (hn : (l.map (·.2)).Nodup) (hj : j < l.length) :
    l.countP (fun y =>
        decide (y.2 ≠ (l.get ⟨j, hj⟩).2 ∧ fracGe y (l.get ⟨j, hj⟩))) = j := by
  induction l generalizing j with
  | nil => simp at hj
  | cons a t ih =>
      rw [List.pairwise_cons] at hp
      obtain ⟨hat, ht⟩ := hp
      rw [List.map_cons, List.nodup_cons] at hn
      obtain ⟨han, htn⟩ := hn
      cases j with
      | zero =>
          have hget : (a :: t).get ⟨0, hj⟩ = a := rfl
          rw [hget, List.countP_cons]
          have h1 : (decide (a.2 ≠ a.2 ∧ fracGe a a)) = false := by simp
          have h2 : t.countP (fun y => decide (y.2 ≠ a.2 ∧ fracGe y a)) = 0 := by
            rw [List.countP_eq_zero]
            intro y hy
            simp only [decide_eq_true_eq, not_and]
            intro hne hge
            exact hne (fracGe_antisymm_idx y a hge (hat y hy))
          rw [h1, h2]
          simp
      | succ j =>
          have hjt : j < t.length := by simpa using hj
          have hget : (a :: t).get ⟨j + 1, hj⟩ = t.get ⟨j, hjt⟩ := rfl
          rw [hget, List.countP_cons]
          have hx2 : (t.get ⟨j, hjt⟩).2 ∈ t.map (·.2) :=
            List.mem_map.mpr ⟨t.get ⟨j, hjt⟩, List.get_mem t j hjt, rfl⟩
          have h1 : (decide (a.2 ≠ (t.get ⟨j, hjt⟩).2 ∧
              fracGe a (t.get ⟨j, hjt⟩))) = true := by
            simp only [decide_eq_true_eq]
            exact ⟨fun h => han (h ▸ hx2), hat _ (List.get_mem t j hjt)⟩
          rw [h1, ih j ht htn hjt]
          simp

/-! ### Pointwise view of the bump fold -/

theorem bump_get (l : List (ℕ × ℤ)) (j i : ℕ) (hi : i < l.length) :
    (bump l j).get ⟨i, by rw [bump_length]; exact hi⟩ =
      if i = j then ((l.get ⟨i, hi⟩).1, (l.get ⟨i, hi⟩).2 + 1)
      else l.get ⟨i, hi⟩ := by
  induction l generalizing i j with
  | nil => simp at hi
  | cons x xs ih =>
      cases j with
      | zero =>
          cases i with
          | zero => simp [bump]
          | succ i => simp [bump]
      | succ j =>
          cases i with
          | zero => simp [bump]
          | succ i =>
              have hit : i < xs.length := by simpa using hi
              have := ih j i hit
              simp only [bump, List.get_cons_succ]
              rw [this]
              by_cases hij : i = j
              · subst hij; simp
              · simp [hij]

theorem foldl_bump_get (ix : List ℕ) (l : List (ℕ × ℤ)) (i : ℕ)
    (hi : i < l.length) :
    (ix.foldl bump l).get ⟨i, by rw [foldl_bump_length]; exact hi⟩ =
      ((l.get ⟨i, hi⟩).1, (l.get ⟨i, hi⟩).2 + ix.count i) := by
  induction ix generalizing l with
  | nil => simp
  | cons j t ih =>
      have hib : i < (bump l j).length := by rw [bump_length]; exact hi
      have h1 := ih (bump l j) hib
      simp only [List.foldl_cons]
      rw [h1, bump_get l j i hi]
      by_cases hij : i = j
      · subst hij
        simp [List.count_cons]
        ring
      · simp [List.count_cons, hij]

theorem foldl_bump_getElem (ix : List ℕ) (l : List (ℕ × ℤ)) (i : ℕ)
    (hi : i < l.length) (h2 : i < (ix.foldl bump l).length) :
    (ix.foldl bump l)[i] =
      ((l.get ⟨i, hi⟩).1, (l.get ⟨i, hi⟩).2 + ix.count i) :=
  foldl_bump_get ix l i hi

/-! ### The rank of an item in the shortfall ordering -/

/-- The `(fraction, index)` pair of item `i` as it appears in `fractions`. -/
def fracPairAt (ps : List (ℕ × ℚ)) (total : ℕ) (i : ℕ) : (ℤ × ℕ) × ℕ :=
  ((fracNum (ps.getD i (0, 0)).2 total, fracDen (ps.getD i (0, 0)).2), i)

theorem resolveFractions_get (ps : List (ℕ × ℚ)) (total : ℕ) (i : ℕ)
    (hi : i < ps.length) :
    (resolveFractions ps total).get
        ⟨i, by rw [resolveFractions_length]; exact hi⟩ =
      fracPairAt ps total i := by
  simp only [resolveFractions, fracPairAt, List.get_eq_getElem,
    List.getElem_map, List.getElem_enum]
  rw [List.getD_eq_getElem ps (0, 0) hi]

theorem mem_resolveFractions (ps : List (ℕ × ℚ)) (total : ℕ)
    (y : (ℤ × ℕ) × ℕ) (hy : y ∈ resolveFractions ps total) :
    y.2 < ps.length ∧ y = fracPairAt ps total y.2 := by
  obtain ⟨ip, hip, rfl⟩ := List.mem_map.mp hy
  have h := List.mem_enum (x := ip.2) (i := ip.1) hip
  refine ⟨h.1, ?_⟩
  simp only [fracPairAt]
  rw [List.getD_eq_getElem ps (0, 0) h.1, ← h.2]

theorem resolveFractions_snd_map (ps : List (ℕ × ℚ)) (total : ℕ) :
    (resolveFractions ps total).map (·.2) = List.range ps.length := by
  unfold resolveFractions
  rw [List.map_map]
  have h : ((fun y : (ℤ × ℕ) × ℕ => y.2) ∘
      (fun ip : ℕ × (ℕ × ℚ) =>
        ((fracNum ip.2.2 total, fracDen ip.2.2), ip.1))) = Prod.fst := rfl
  rw [h, List.enum_map_fst]

theorem resolveFractions_den_pos (ps : List (ℕ × ℚ)) (total : ℕ) :
    ∀ x ∈ resolveFractions ps total, 0 < x.1.2 := by
  intro x hx
  obtain ⟨ip, _, rfl⟩ := List.mem_map.mp hx
  exact fracDen_pos _

theorem resolveSorted_pairwise (ps : List (ℕ × ℚ)) (total : ℕ) :
    (resolveSorted ps total).Pairwise fracGe :=
  pairwise_insertionSort_fracGe _ (resolveFractions_den_pos ps total)

theorem resolveSorted_snd_nodup (ps : List (ℕ × ℚ)) (total : ℕ) :
    ((resolveSorted ps total).map (·.2)).Nodup := by
  have hperm := (resolveSorted_perm ps total).map (fun y : (ℤ × ℕ) × ℕ => y.2)
  rw [hperm.nodup_iff, resolveFractions_snd_map]
  exact List.nodup_range _

/-- The number of items served before item `i` in the shortfall loop: items
with a strictly larger fractional remainder, or an equal remainder and a
larger input index. -/
def resolveRank (ps : List (ℕ × ℚ)) (total : ℕ) (i : ℕ) : ℕ :=
  (resolveFractions ps total).countP
    (fun y => decide (y.2 ≠ i ∧ fracGe y (fracPairAt ps total i)))

theorem resolveRank_lt_length (ps : List (ℕ × ℚ)) (total : ℕ) (i : ℕ)
    (hi : i < ps.length) : resolveRank ps total i < ps.length := by
  rw [resolveRank, List.countP_eq_length_filter]
  have hmem : fracPairAt ps total i ∈ resolveFractions ps total := by
    rw [← resolveFractions_get ps total i hi]
    exact List.get_mem _ _ _
  have := List.length_filter_lt_length_iff_exists
    (p := fun y => decide (y.2 ≠ i ∧ fracGe y (fracPairAt ps total i)))
    (l := resolveFractions ps total) |>.mpr
    ⟨fracPairAt ps total i, hmem, by simp [fracPairAt]⟩
  calc (List.filter _ (resolveFractions ps total)).length
      < (resolveFractions ps total).length := this
    _ = ps.length := resolveFractions_length ps total

/-- Membership in the first `k` sorted fractions is exactly `rank < k`. -/
theorem mem_take_sorted_iff (ps : List (ℕ × ℚ)) (total : ℕ) (k i : ℕ)
    (hi : i < ps.length) :
    i ∈ ((resolveSorted ps total).take k).map (·.2) ↔
      resolveRank ps total i < k := by
  have hperm := resolveSorted_perm ps total
  have hpair := resolveSorted_pairwise ps total
  have hsnd := resolveSorted_snd_nodup ps total
  constructor
  · intro hmem
    obtain ⟨y, hy, hysnd⟩ := List.mem_map.mp hmem
    obtain ⟨j, hj, hjy⟩ := List.mem_iff_getElem.mp hy
    have hjk : j < k := lt_of_lt_of_le hj
      (by rw [List.length_take]; exact min_le_left _ _)
    have hjS : j < (resolveSorted ps total).length := lt_of_lt_of_le hj
      (by rw [List.length_take]; exact min_le_right _ _)
    have hSj : (resolveSorted ps total).get ⟨j, hjS⟩ = y := by
      rw [← hjy, List.get_eq_getElem, List.getElem_take]
    have hA := countP_pairwise_position (resolveSorted ps total) j hpair hsnd hjS
    have hyf : y ∈ resolveFractions ps total :=
      hperm.mem_iff.mp (List.mem_of_mem_take hy)
    obtain ⟨hylt, hyeq⟩ := mem_resolveFractions ps total y hyf
    have hrj : resolveRank ps total i = j := by
      rw [resolveRank, ← hperm.countP_eq, ← hA]
      apply List.countP_congr
      intro z _
      rw [hSj, ← hysnd, ← hyeq]
    omega
  · intro hrank
    have hmemf : fracPairAt ps total i ∈ resolveFractions ps total := by
      rw [← resolveFractions_get ps total i hi]
      exact List.get_mem _ _ _
    have hmemS : fracPairAt ps total i ∈ resolveSorted ps total :=
      hperm.mem_iff.mpr hmemf
    obtain ⟨j, hj, hjf⟩ := List.mem_iff_getElem.mp hmemS
    have hA := countP_pairwise_position (resolveSorted ps total) j hpair hsnd hj
    have hrj : resolveRank ps total i = j := by
      rw [resolveRank, ← hperm.countP_eq, ← hA]
      apply List.countP_congr
      intro z _
      rw [show (resolveSorted ps total).get ⟨j, hj⟩ = fracPairAt ps total i by
        rw [List.get_eq_getElem, hjf]]
      exact Iff.rfl
    have hjk : j < k := by omega
    have htb : j < (List.take k (resolveSorted ps total)).length := by
      rw [List.length_take]
      exact lt_min hjk hj
    refine List.mem_map.mpr ⟨fracPairAt ps total i, ?_, rfl⟩
    have hget : (List.take k (resolveSorted ps total))[j] =
        fracPairAt ps total i := by
      rw [List.getElem_take]
      exact hjf
    exact hget ▸ List.getElem_mem htb

theorem resolve_distribution_length (ps : List (ℕ × ℚ)) (total : ℕ) :
    (resolve_distribution ps total).length = ps.length := by
  rw [resolve_distribution]
  split
  · simp
  · split
    · rw [foldl_bump_length, resolveFloors_length]
    · exact resolveFloors_length ps total

/-- C3, counterexample.  For `[(1, 50%), (2, 50%)]` over 3 beds both items
have fractional remainder `0.5`; the Python `fractions.sort(reverse=True)` on
`(frac, index)` pairs puts the *larger* index first on a tie, so the single
shortfall unit goes to item 2 (the later item), yielding `[(1,1),(2,2)]` and
not the `[(1,2),(2,1)]` that the claimed earlier-item tie-break predicts. -/
theorem C3_counterexample :
    resolve_distribution [(1, 50), (2, 50)] 3 = [(1, 1), (2, 2)] ∧
      resolve_distribution [(1, 50), (2, 50)] 3 ≠ [(1, 2), (2, 1)] := by
  constructor
  · decide
  · decide

/-- C3, amended.  After each item gets the provisional count
`floor(pct*total/100)`, the shortfall is distributed one unit at a time to
the items with the largest fractional remainder, but ties between equal
fractional remainders are broken by the *reverse* input order: the later
item of the input list receives a unit before an earlier tied item.
Formally, item `i` is topped up by one exactly when its rank — the number of
items `j ≠ i` whose fractional remainder is larger, or equal with `j > i` —
is below the shortfall; the second conjunct states that reading of
`resolveRank` in terms of `Int.fract` of the exact rational shares. -/
theorem C3_resolver_shortfall (ps : List (ℕ × ℚ)) (total : ℕ) (i : ℕ)
    (hne : ps ≠ []) (h0 : total ≠ 0) (hi : i < ps.length) :
    (resolve_distribution ps total).getD i (0, 0) =
      ((ps.getD i (0, 0)).1,
        floorPct (ps.getD i (0, 0)).2 total +
          if 0 < resolveRemainder ps total ∧
              resolveRank ps total i < (resolveRemainder ps total).toNat
          then 1 else 0) ∧
    resolveRank ps total i =
      ((List.range ps.length).filter (fun j => decide (j ≠ i ∧
          (Int.fract ((ps.getD i (0, 0)).2 * (total : ℚ) / 100)
              < Int.fract ((ps.getD j (0, 0)).2 * (total : ℚ) / 100) ∨
            (Int.fract ((ps.getD j (0, 0)).2 * (total : ℚ) / 100)
                = Int.fract ((ps.getD i (0, 0)).2 * (total : ℚ) / 100) ∧
              i ≤ j))))).length := by
  have hv : ∀ m, fracVal (fracPairAt ps total m)
      = Int.fract ((ps.getD m (0, 0)).2 * (total : ℚ) / 100) := by
    intro m
    rw [fracPairAt, fracVal]
    exact (fract_eq_fracNum_div _ _).symm
  constructor
  · have hcond : ¬(ps.isEmpty ∨ total = 0) := by
      simp [hne, h0]
    rw [resolve_distribution, if_neg hcond]
    by_cases h2 : 0 < resolveRemainder ps total
    · rw [if_pos h2]
      have hif : i < (resolveFloors ps total).length := by
        rw [resolveFloors_length]; exact hi
      have hlen : i < ((((resolveSorted ps total).take
          (min (resolveRemainder ps total).toNat
            (resolveFractions ps total).length)).map (·.2)).foldl
          bump (resolveFloors ps total)).length := by
        rw [foldl_bump_length, resolveFloors_length]; exact hi
      rw [List.getD_eq_getElem _ _ hlen,
        foldl_bump_getElem _ _ i hif hlen]
      have hfget : (resolveFloors ps total).get ⟨i, hif⟩ =
          ((ps.getD i (0, 0)).1, floorPct (ps.getD i (0, 0)).2 total) := by
        simp only [resolveFloors, List.get_eq_getElem, List.getElem_map]
        rw [List.getD_eq_getElem ps (0, 0) hi]
      rw [hfget]
      have hixnodup : (((resolveSorted ps total).take
          (min (resolveRemainder ps total).toNat
            (resolveFractions ps total).length)).map (·.2)).Nodup := by
        rw [List.map_take]
        exact (List.take_sublist _ _).nodup (resolveSorted_snd_nodup ps total)
      have hmem := mem_take_sorted_iff ps total
        (min (resolveRemainder ps total).toNat
          (resolveFractions ps total).length) i hi
      have hrlt := resolveRank_lt_length ps total i hi
      have hfl : (resolveFractions ps total).length = ps.length :=
        resolveFractions_length ps total
      by_cases hm : i ∈ ((resolveSorted ps total).take
          (min (resolveRemainder ps total).toNat
            (resolveFractions ps total).length)).map (·.2)
      · rw [List.count_eq_one_of_mem hixnodup hm]
        have hr := hmem.mp hm
        rw [if_pos ⟨h2, by omega⟩]
        simp
      · rw [List.count_eq_zero_of_not_mem hm]
        have hr : ¬resolveRank ps total i <
            min (resolveRemainder ps total).toNat
              (resolveFractions ps total).length :=
          fun h => hm (hmem.mpr h)
        rw [if_neg (by omega)]
        simp
    · rw [if_neg h2]
      have hif : i < (resolveFloors ps total).length := by
        rw [resolveFloors_length]; exact hi
      rw [List.getD_eq_getElem _ _ hif]
      simp only [resolveFloors, List.getElem_map]
      rw [List.getD_eq_getElem ps (0, 0) hi]
      rw [if_neg (by tauto)]
      simp
  · rw [resolveRank]
    rw [List.countP_congr
      (q := fun y : (ℤ × ℕ) × ℕ => (fun j => decide (j ≠ i ∧
        fracGe (fracPairAt ps total j) (fracPairAt ps total i))) y.2)
      (by
        intro y hy
        obtain ⟨hylt, hyeq⟩ := mem_resolveFractions ps total y hy
        simp only [decide_eq_true_eq]
        constructor
        · intro h
          exact ⟨h.1, hyeq ▸ h.2⟩
        · intro h
          refine ⟨h.1, ?_⟩
          rw [hyeq]
          exact h.2)]
    rw [show (fun y : (ℤ × ℕ) × ℕ => (fun j => decide (j ≠ i ∧
        fracGe (fracPairAt ps total j) (fracPairAt ps total i))) y.2)
      = ((fun j => decide (j ≠ i ∧
          fracGe (fracPairAt ps total j) (fracPairAt ps total i)))
        ∘ (fun y : (ℤ × ℕ) × ℕ => y.2)) from rfl]
    rw [← List.countP_map, resolveFractions_snd_map,
      List.countP_eq_length_filter]
    congr 1
    apply List.filter_congr
    intro j hj
    rw [decide_eq_decide]
    apply and_congr_right
    intro _
    rw [fracGe_iff _ _ (fracDen_pos _) (fracDen_pos _)]
    rw [hv i, hv j]
    exact Iff.rfl

/-- C3, witness: the amended characterization applied at
`[(1, 50%), (2, 50%)]`, `total = 3`, item `i = 1`. -/
theorem C3_witness :
    (resolve_distribution [(1, (50 : ℚ)), (2, 50)] 3).getD 1 (0, 0) =
      (([(1, (50 : ℚ)), (2, 50)].getD 1 (0, 0)).1,
        floorPct ([(1, (50 : ℚ)), (2, 50)].getD 1 (0, 0)).2 3 +
          if 0 < resolveRemainder [(1, (50 : ℚ)), (2, 50)] 3 ∧
              resolveRank [(1, (50 : ℚ)), (2, 50)] 3 1 <
                (resolveRemainder [(1, (50 : ℚ)), (2, 50)] 3).toNat
          then 1 else 0) ∧
    resolveRank [(1, (50 : ℚ)), (2, 50)] 3 1 =
      ((List.range [(1, (50 : ℚ)), (2, 50)].length).filter
        (fun j => decide (j ≠ 1 ∧
          (Int.fract (([(1, (50 : ℚ)), (2, 50)].getD 1 (0, 0)).2 * (3 : ℚ) / 100)
              < Int.fract (([(1, (50 : ℚ)), (2, 50)].getD j (0, 0)).2 * (3 : ℚ) / 100) ∨
            (Int.fract (([(1, (50 : ℚ)), (2, 50)].getD j (0, 0)).2 * (3 : ℚ) / 100)
                = Int.fract (([(1, (50 : ℚ)), (2, 50)].getD 1 (0, 0)).2 * (3 : ℚ) / 100) ∧
              1 ≤ j))))).length :=
  C3_resolver_shortfall [(1, (50 : ℚ)), (2, 50)] 3 1
    (by decide) (by decide) (by decide)

/-! ## Cycle Arithmetic — `compute_next_cycle_id` (rotation_engine.py 40-94)

Cycle identifiers are `String`s; Python string slicing `s[:4]` / `s[4:]` /
`s[5:]` acts on the character list, `int(...)` is embedded for the digit
strings the engine feeds it (optional minus sign plus decimal digits), and
`str(year)` is embedded as exact decimal printing.  A Python `ValueError`
(unparsable integer or unsupported cadence) becomes an `Except.error`. -/

/-- ASCII digit character of a single decimal digit. -/
def digitChar (d : ℕ) : Char := Char.ofNat (48 + d)

/-- Little-endian base-10 digits, with structural fuel (first argument). -/
def digitsLE : ℕ → ℕ → List ℕ
  | 0, _ => []
  | _ + 1, 0 => []
  | fuel + 1, n + 1 => (n + 1) % 10 :: digitsLE fuel ((n + 1) / 10)

/-- Little-endian base-10 digits of `n`. -/
def natDigitsLE (n : ℕ) : List ℕ := digitsLE n n

/-- Value of a little-endian digit list. -/
def ofDigitsLE (ds : List ℕ) : ℕ := ds.foldr (fun d acc => 10 * acc + d) 0

/-- Python `str` of a non-negative integer. -/
def pyStrNat (n : ℕ) : String :=
  if n = 0 then "0" else ⟨(natDigitsLE n).reverse.map digitChar⟩

/-- Python `str` of an integer. -/
def pyStrInt (z : ℤ) : String :=
  if z < 0 then "-" ++ pyStrNat z.natAbs else pyStrNat z.toNat

/-- Parse a non-empty all-digit character list (helper for `pyInt`). -/
def parseNatDigits (cs : List Char) : Option ℕ :=
  if cs ≠ [] ∧ cs.all (fun c => c.isDigit) then
    some (cs.foldl (fun a c => 10 * a + (c.toNat - 48)) 0)
  else none

/-- Python `int(...)` on the string shapes the engine produces (an optional
minus sign followed by decimal digits); anything else raises `ValueError`,
modelled as `none`. -/
def pyInt (s : String) : Option ℤ :=
  if s.data = [] then none
  else if s.data.head! = '-' then
    (parseNatDigits s.data.tail).map (fun n => -(n : ℤ))
  else
    (parseNatDigits s.data).map (fun n => (n : ℤ))

/-- Python `s[:n]`. -/
def strTake (s : String) (n : ℕ) : String := ⟨s.data.take n⟩

/-- Python `s[n:]`. -/
def strDrop (s : String) (n : ℕ) : String := ⟨s.data.drop n⟩

instance {e a : Type} [DecidableEq e] [DecidableEq a] : DecidableEq (Except e a)
  | .ok x, .ok y =>
      decidable_of_iff (x = y) ⟨fun h => h ▸ rfl, fun h => by injection h⟩
  | .error x, .error y =>
      decidable_of_iff (x = y) ⟨fun h => h ▸ rfl, fun h => by injection h⟩
  | .ok _, .error _ => isFalse fun h => by injection h
  | .error _, .ok _ => isFalse fun h => by injection h

/-- `compute_next_cycle_id(prev_cycle, cycles_per_year)`
(rotation_engine.py 40-94). -/
def compute_next_cycle_id (prev_cycle : String) (cycles_per_year : ℤ) :
    Except String String :=
  if cycles_per_year = 1 then
    match pyInt (strTake prev_cycle 4) with
    | none => .error "invalid literal for int"
    | some year => .ok (pyStrInt (year + 1))
  else if cycles_per_year = 2 then
    match pyInt (strTake prev_cycle 4) with
    | none => .error "invalid literal for int"
    | some year =>
        if strDrop prev_cycle 4 = "A" then .ok (pyStrInt year ++ "B")
        else .ok (pyStrInt (year + 1) ++ "A")
  else if cycles_per_year = 3 then
    match pyInt (strTake prev_cycle 4) with
    | none => .error "invalid literal for int"
    | some year =>
        if strDrop prev_cycle 4 = "A" then .ok (pyStrInt year ++ "B")
        else if strDrop prev_cycle 4 = "B" then .ok (pyStrInt year ++ "C")
        else .ok (pyStrInt (year + 1) ++ "A")
  else if cycles_per_year = 4 then
    match pyInt (strTake prev_cycle 4) with
    | none => .error "invalid literal for int"
    | some year =>
        match pyInt (strDrop prev_cycle 5) with
        | none => .error "invalid literal for int"
        | some quarter =>
            if quarter < 4 then
              .ok (pyStrInt year ++ "Q" ++ pyStrInt (quarter + 1))
            else .ok (pyStrInt (year + 1) ++ "Q1")
  else
    .error "Unsupported cycles_per_year"

/-! ### Decimal printing / parsing round-trip -/

theorem digitsLE_fuel (f1 f2 n : ℕ) (h1 : n ≤ f1) (h2 : n ≤ f2) :
    digitsLE f1 n = digitsLE f2 n := by
  induction f1 generalizing f2 n with
  | zero =>
      have hn : n = 0 := by omega
      subst hn
      cases f2 <;> rfl
  | succ f1 ih =>
      cases n with
      | zero => cases f2 <;> rfl
      | succ m =>
          cases f2 with
          | zero => omega
          | succ f2 =>
              simp only [digitsLE]
              congr 1
              have hdiv : (m + 1) / 10 < m + 1 :=
                Nat.div_lt_self (Nat.succ_pos m) (by norm_num)
              exact ih f2 ((m + 1) / 10) (by omega) (by omega)

theorem ofDigitsLE_digitsLE (f n : ℕ) (h : n ≤ f) :
    ofDigitsLE (digitsLE f n) = n := by
  induction f generalizing n with
  | zero =>
      have hn : n = 0 := by omega
      subst hn
      rfl
  | succ f ih =>
      cases n with
      | zero => rfl
      | succ m =>
          simp only [digitsLE, ofDigitsLE, List.foldr_cons]
          have hdiv : (m + 1) / 10 < m + 1 :=
            Nat.div_lt_self (Nat.succ_pos m) (by norm_num)
          rw [show List.foldr (fun d acc => 10 * acc + d) 0
              (digitsLE f ((m + 1) / 10)) = ofDigitsLE (digitsLE f ((m + 1) / 10))
            from rfl]
          rw [ih ((m + 1) / 10) (by omega)]
          omega

theorem digitsLE_lt_ten (f n : ℕ) : ∀ d ∈ digitsLE f n, d < 10 := by
  induction f generalizing n with
  | zero => intro d hd; simp [digitsLE] at hd
  | succ f ih =>
      cases n with
      | zero => intro d hd; simp [digitsLE] at hd
      | succ m =>
          intro d hd
          simp only [digitsLE, List.mem_cons] at hd
          rcases hd with rfl | hd
          · exact Nat.mod_lt _ (by norm_num)
          · exact ih _ d hd

theorem digitsLE_length_le_iff (f n k : ℕ) (h : n ≤ f) :
    (digitsLE f n).length ≤ k ↔ n < 10 ^ k := by
  induction f generalizing n k with
  | zero =>
      have hn : n = 0 := by omega
      subst hn
      simp [digitsLE]
  | succ f ih =>
      cases n with
      | zero =>
          simp [digitsLE]
      | succ m =>
          cases k with
          | zero =>
              simp only [digitsLE, List.length_cons, pow_zero]
              omega
          | succ k =>
              simp only [digitsLE, List.length_cons, Nat.succ_le_succ_iff]
              have hdiv : (m + 1) / 10 < m + 1 :=
                Nat.div_lt_self (Nat.succ_pos m) (by norm_num)
              rw [ih ((m + 1) / 10) k (by omega)]
              rw [pow_succ]
              exact Nat.div_lt_iff_lt_mul (by norm_num)

theorem natDigitsLE_ne_nil (n : ℕ) (h : n ≠ 0) : natDigitsLE n ≠ [] := by
  cases n with
  | zero => exact absurd rfl h
  | succ m => simp [natDigitsLE, digitsLE]

theorem natDigitsLE_lt_ten (n : ℕ) : ∀ d ∈ natDigitsLE n, d < 10 :=
  digitsLE_lt_ten n n

theorem digitChar_isDigit : ∀ d, d < 10 → (digitChar d).isDigit = true := by
  decide

theorem digitChar_toNat : ∀ d, d < 10 → (digitChar d).toNat = 48 + d := by
  decide

theorem digitChar_ne_minus : ∀ d, d < 10 → digitChar d ≠ '-' := by
  decide

theorem foldl_parse_digits (ds : List ℕ) (hds : ∀ d ∈ ds, d < 10) (a : ℕ) :
    (ds.map digitChar).foldl (fun a c => 10 * a + (c.toNat - 48)) a
      = ds.foldl (fun a d => 10 * a + d) a := by
  induction ds generalizing a with
  | nil => rfl
  | cons d t ih =>
      simp only [List.map_cons, List.foldl_cons]
      rw [digitChar_toNat d (hds d (by simp))]
      rw [show 10 * a + (48 + d - 48) = 10 * a + d by omega]
      exact ih (fun x hx => hds x (by simp [hx])) _

theorem foldl_digits_reverse (ds : List ℕ) :
    ds.reverse.foldl (fun a d => 10 * a + d) 0 = ofDigitsLE ds := by
  rw [List.foldl_reverse]
  rfl

theorem parse_pyStrNat (n : ℕ) : parseNatDigits (pyStrNat n).data = some n := by
  by_cases h0 : n = 0
  · subst h0; decide
  · rw [pyStrNat, if_neg h0]
    show parseNatDigits ((natDigitsLE n).reverse.map digitChar) = some n
    rw [parseNatDigits, if_pos ?hc]
    case hc =>
      constructor
      · simp only [ne_eq, List.map_eq_nil_iff, List.reverse_eq_nil_iff]
        exact natDigitsLE_ne_nil n h0
      · rw [List.all_eq_true]
        intro c hc
        obtain ⟨d, hd, rfl⟩ := List.mem_map.mp hc
        exact digitChar_isDigit d
          (natDigitsLE_lt_ten n d (List.mem_reverse.mp hd))
    congr 1
    rw [foldl_parse_digits ((natDigitsLE n).reverse)
      (fun d hd => natDigitsLE_lt_ten n d (List.mem_reverse.mp hd)) 0]
    rw [foldl_digits_reverse]
    exact ofDigitsLE_digitsLE n n le_rfl

theorem pyStrNat_data (n : ℕ) (h0 : n ≠ 0) :
    (pyStrNat n).data = (natDigitsLE n).reverse.map digitChar := by
  rw [pyStrNat, if_neg h0]

theorem pyInt_pyStrNat (n : ℕ) : pyInt (pyStrNat n) = some (n : ℤ) := by
  by_cases h0 : n = 0
  · subst h0; decide
  · have hne : (pyStrNat n).data ≠ [] := by
      rw [pyStrNat_data n h0]
      simp only [ne_eq, List.map_eq_nil_iff, List.reverse_eq_nil_iff]
      exact natDigitsLE_ne_nil n h0
    have hhead : (pyStrNat n).data.head! ≠ '-' := by
      rw [pyStrNat_data n h0]
      cases hr : (natDigitsLE n).reverse with
      | nil =>
          exact absurd (by simpa using hr) (natDigitsLE_ne_nil n h0)
      | cons d t =>
          have hd10 : d < 10 := natDigitsLE_lt_ten n d
            (List.mem_reverse.mp (hr ▸ List.mem_cons_self d t))
          simp only [List.map_cons, List.head!]
          exact digitChar_ne_minus d hd10
    rw [pyInt, if_neg hne, if_neg hhead, parse_pyStrNat n]
    rfl

theorem pyStrInt_natCast (n : ℕ) : pyStrInt (n : ℤ) = pyStrNat n := by
  rw [pyStrInt, if_neg (by omega), Int.toNat_natCast]

theorem pyStrNat_data_length4 (y : ℕ) (h1 : 1000 ≤ y) (h2 : y ≤ 9999) :
    (pyStrNat y).data.length = 4 := by
  rw [pyStrNat_data y (by omega), List.length_map, List.length_reverse]
  have h4 := (digitsLE_length_le_iff y y 4 le_rfl).mpr (by norm_num; omega)
  have h3 : ¬(digitsLE y y).length ≤ 3 := fun hl => by
    have := (digitsLE_length_le_iff y y 3 le_rfl).mp hl
    norm_num at this
    omega
  rw [natDigitsLE]
  omega

theorem strTake_append_year (y : ℕ) (h1 : 1000 ≤ y) (h2 : y ≤ 9999)
    (t : String) : strTake (pyStrNat y ++ t) 4 = pyStrNat y := by
  rw [strTake, String.data_append, ← pyStrNat_data_length4 y h1 h2,
    List.take_left]

theorem strDrop_append_year (y : ℕ) (h1 : 1000 ≤ y) (h2 : y ≤ 9999)
    (t : String) : strDrop (pyStrNat y ++ t) 4 = t := by
  rw [strDrop, String.data_append, ← pyStrNat_data_length4 y h1 h2,
    List.drop_left]

theorem strDrop5_append_year (y : ℕ) (h1 : 1000 ≤ y) (h2 : y ≤ 9999)
    (c1 c2 : Char) : strDrop (pyStrNat y ++ ⟨[c1, c2]⟩) 5 = ⟨[c2]⟩ := by
  rw [strDrop, String.data_append]
  rw [show (5 : ℕ) = (pyStrNat y).data.length + 1 by
    rw [pyStrNat_data_length4 y h1 h2]]
  rw [List.drop_append]
  rfl

/-! ### Rolling the year forward -/

theorem strTake_pyStrNat (y : ℕ) (h1 : 1000 ≤ y) (h2 : y ≤ 9999) :
    strTake (pyStrNat y) 4 = pyStrNat y := by
  rw [strTake, List.take_of_length_le (by rw [pyStrNat_data_length4 y h1 h2])]

theorem roll_cadence1 (y : ℕ) (h1 : 1000 ≤ y) (h2 : y ≤ 9999) :
    compute_next_cycle_id (pyStrNat y) 1 = .ok (pyStrNat (y + 1)) := by
  rw [compute_next_cycle_id, if_pos rfl, strTake_pyStrNat y h1 h2,
    pyInt_pyStrNat y]
  dsimp only
  rw [show ((y : ℤ) + 1) = ((y + 1 : ℕ) : ℤ) by push_cast; ring,
    pyStrInt_natCast]

theorem roll_cadence2 (y : ℕ) (h1 : 1000 ≤ y) (h2 : y ≤ 9999) :
    compute_next_cycle_id (pyStrNat y ++ "B") 2
      = .ok (pyStrNat (y + 1) ++ "A") := by
  rw [compute_next_cycle_id, if_neg (by decide), if_pos rfl,
    strTake_append_year y h1 h2 "B", pyInt_pyStrNat y]
  dsimp only
  rw [strDrop_append_year y h1 h2 "B", if_neg (by decide)]
  rw [show ((y : ℤ) + 1) = ((y + 1 : ℕ) : ℤ) by push_cast; ring,
    pyStrInt_natCast]

theorem roll_cadence3 (y : ℕ) (h1 : 1000 ≤ y) (h2 : y ≤ 9999) :
    compute_next_cycle_id (pyStrNat y ++ "C") 3
      = .ok (pyStrNat (y + 1) ++ "A") := by
  rw [compute_next_cycle_id, if_neg (by decide), if_neg (by decide),
    if_pos rfl, strTake_append_year y h1 h2 "C", pyInt_pyStrNat y]
  dsimp only
  rw [strDrop_append_year y h1 h2 "C", if_neg (by decide), if_neg (by decide)]
  rw [show ((y : ℤ) + 1) = ((y + 1 : ℕ) : ℤ) by push_cast; ring,
    pyStrInt_natCast]

theorem roll_cadence4 (y : ℕ) (h1 : 1000 ≤ y) (h2 : y ≤ 9999) :
    compute_next_cycle_id (pyStrNat y ++ "Q4") 4
      = .ok (pyStrNat (y + 1) ++ "Q1") := by
  rw [compute_next_cycle_id, if_neg (by decide), if_neg (by decide),
    if_neg (by decide), if_pos rfl, strTake_append_year y h1 h2 "Q4",
    pyInt_pyStrNat y]
  dsimp only
  rw [show ("Q4" : String) = (⟨['Q', '4']⟩ : String) from rfl,
    strDrop5_append_year y h1 h2 'Q' '4',
    show pyInt (⟨['4']⟩ : String) = some (4 : ℤ) from by decide]
  dsimp only
  rw [if_neg (by omega)]
  rw [show ((y : ℤ) + 1) = ((y + 1 : ℕ) : ℤ) by push_cast; ring,
    pyStrInt_natCast]

/-- C9.  `next_cycle_id` satisfies the four concrete examples; for every
4-digit year, advancing the last suffix of that year rolls the year forward
and resets to the first suffix (cadence 1: bare year; cadence 2: suffix `B`;
cadence 3: suffix `C`; cadence 4: suffix `Q4`); and every cadence outside
1..4 yields the unsupported-cadence error. -/
theorem C9_cycle_arithmetic :
    compute_next_cycle_id "2026A" 2 = .ok "2026B" ∧
    compute_next_cycle_id "2026B" 2 = .ok "2027A" ∧
    compute_next_cycle_id "2026Q4" 4 = .ok "2027Q1" ∧
    compute_next_cycle_id "2026" 1 = .ok "2027" ∧
    (∀ y : ℕ, 1000 ≤ y → y ≤ 9999 →
      compute_next_cycle_id (pyStrNat y) 1 = .ok (pyStrNat (y + 1)) ∧
      compute_next_cycle_id (pyStrNat y ++ "B") 2
        = .ok (pyStrNat (y + 1) ++ "A") ∧
      compute_next_cycle_id (pyStrNat y ++ "C") 3
        = .ok (pyStrNat (y + 1) ++ "A") ∧
      compute_next_cycle_id (pyStrNat y ++ "Q4") 4
        = .ok (pyStrNat (y + 1) ++ "Q1")) ∧
    (∀ (prev : String) (cad : ℤ), cad ≠ 1 → cad ≠ 2 → cad ≠ 3 → cad ≠ 4 →
      compute_next_cycle_id prev cad = .error "Unsupported cycles_per_year") := by
  refine ⟨by decide, by decide, by decide, by decide, ?_, ?_⟩
  · intro y hy1 hy2
    exact ⟨roll_cadence1 y hy1 hy2, roll_cadence2 y hy1 hy2,
      roll_cadence3 y hy1 hy2, roll_cadence4 y hy1 hy2⟩
  · intro prev cad hc1 hc2 hc3 hc4
    rw [compute_next_cycle_id, if_neg hc1, if_neg hc2, if_neg hc3, if_neg hc4]

/-- C9, witness: the year-roll clause at `y = 2026` (cadence 2) and the
unsupported-cadence clause at cadence 5. -/
theorem C9_witness :
    compute_next_cycle_id (pyStrNat 2026 ++ "B") 2
      = .ok (pyStrNat 2027 ++ "A") ∧
    compute_next_cycle_id "2026A" 5 = .error "Unsupported cycles_per_year" :=
  ⟨(C9_cycle_arithmetic.2.2.2.2.1 2026 (by decide) (by decide)).2.1,
    C9_cycle_arithmetic.2.2.2.2.2 "2026A" 5 (by decide) (by decide)
      (by decide) (by decide)⟩

/-! ## Bed-First Initial Allocator quotas — `_compute_auto_distribution`
(routes/cycle.py 124-178)

Step 2 computes per-category sub-bed quotas by even division with the
remainder going to the earliest categories.  Step 3 computes per-crop counts
inside a category from the distribution defaults: proportional shares rounded
with Python `round` (half-to-even rounding), clamped to the remaining quota, with
the whole remainder handed to the last crop — or an equal split with
remainder to the earliest crops when no defaults exist. -/

/-- Step 2 (cycle.py 124-129): per-category sub-bed quotas. -/
def category_quota (categories : List String) (total_sub_beds : ℕ) :
    List (String × ℕ) :=
  categories.enum.map (fun ic =>
    (ic.2, total_sub_beds / categories.length +
      if ic.1 < total_sub_beds % categories.length then 1 else 0))

/-- Python `round` (round-half-to-even), exact rational semantics. -/
def pyRound (q : ℚ) : ℤ :=
  if q - ⌊q⌋ < 1 / 2 then ⌊q⌋
  else if 1 / 2 < q - ⌊q⌋ then ⌊q⌋ + 1
  else if ⌊q⌋ % 2 = 0 then ⌊q⌋ else ⌊q⌋ + 1

/-- One iteration of the `for i, crop in enumerate(cat_crops)` loop of
step 3 (cycle.py 148-161). -/
def cropStep (len : ℕ) (defaults : String → ℚ) (total_pct : ℚ)
    (cat_total : ℕ) (acc : List (ℕ × ℤ) × ℤ) (ic : ℕ × (ℕ × String)) :
    List (ℕ × ℤ) × ℤ :=
  let pct := defaults ic.2.2
  if pct = 0 then acc
  else
    let count : ℤ :=
      if ic.1 = len - 1 ∨ acc.2 ≤ 0 then acc.2
      else min (max 0 (pyRound (pct / total_pct * cat_total))) acc.2
    (acc.1 ++ [(ic.2.1, count)], acc.2 - count)

/-- The whole loop of step 3: accumulates `crop_counts` and `remaining`. -/
def crop_counts_loop (cat_crops : List (ℕ × String)) (defaults : String → ℚ)
    (total_pct : ℚ) (cat_total : ℕ) : List (ℕ × ℤ) × ℤ :=
  cat_crops.enum.foldl
    (cropStep cat_crops.length defaults total_pct cat_total)
    ([], (cat_total : ℤ))

/-- `crop_counts[-1] = (last_id, last_count + remaining)` (cycle.py 163-167). -/
def addRemainderToLast (l : List (ℕ × ℤ)) (r : ℤ) : List (ℕ × ℤ) :=
  l.dropLast ++ (match l.getLast? with
    | some lc => [(lc.1, lc.2 + r)]
    | none => [])

/-- Step 3 (cycle.py 144-175): per-crop counts within one category. -/
def crop_counts (cat_crops : List (ℕ × String)) (defaults : String → ℚ)
    (cat_total : ℕ) : List (ℕ × ℤ) :=
  let total_pct := (cat_crops.map (fun c => defaults c.2)).sum
  if 0 < total_pct then
    let cr := crop_counts_loop cat_crops defaults total_pct cat_total
    if 0 < cr.2 ∧ cr.1 ≠ [] then addRemainderToLast cr.1 cr.2
    else cr.1
  else
    cat_crops.enum.map (fun ic =>
      (ic.2.1, ((cat_total / cat_crops.length +
        (if ic.1 < cat_total % cat_crops.length then 1 else 0) : ℕ) : ℤ)))

/-- The 50/50 defaults used in the C2 counterexample. -/
def exDefaults : String → ℚ := fun n =>
  if n = "A" then 50 else if n = "B" then 50 else 0

/-! ### Quota arithmetic for the Bed-First Initial Allocator -/

theorem sum_range_min (n q r : ℕ) :
    ((List.range n).map (fun i => q + if i < r then 1 else 0)).sum
      = n * q + min r n := by
  induction n with
  | zero => simp
  | succ n ih =>
      rw [List.range_succ, List.map_append, List.sum_append, ih]
      simp only [List.map_cons, List.map_nil, List.sum_cons, List.sum_nil]
      by_cases h : n < r
      · rw [if_pos h, Nat.succ_mul]
        omega
      · rw [if_neg h, Nat.succ_mul]
        omega

theorem sum_enum_index {α : Type} (l : List α) (f : ℕ → ℕ) :
    (l.enum.map (fun ic => f ic.1)).sum = ((List.range l.length).map f).sum := by
  rw [show (l.enum.map (fun ic => f ic.1)) = (l.enum.map Prod.fst).map f by
    rw [List.map_map]; rfl]
  rw [List.enum_map_fst]

theorem category_quota_sum (cats : List String) (total : ℕ) (hne : cats ≠ []) :
    ((category_quota cats total).map (·.2)).sum = total := by
  rw [category_quota, List.map_map]
  rw [show ((fun x : String × ℕ => x.2) ∘
      (fun ic : ℕ × String => (ic.2, total / cats.length +
        if ic.1 < total % cats.length then 1 else 0)))
    = (fun ic : ℕ × String => total / cats.length +
        if ic.1 < total % cats.length then 1 else 0) from rfl]
  rw [sum_enum_index cats
    (fun i => total / cats.length + if i < total % cats.length then 1 else 0)]
  rw [sum_range_min]
  have hn : 0 < cats.length := List.length_pos.mpr hne
  have h1 : total % cats.length < cats.length := Nat.mod_lt _ hn
  have h2 := Nat.mod_add_div total cats.length
  omega

theorem category_quota_getD (cats : List String) (total : ℕ) (i : ℕ)
    (hi : i < cats.length) :
    (category_quota cats total).getD i ("", 0) =
      (cats.getD i "", total / cats.length +
        if i < total % cats.length then 1 else 0) := by
  have hlen : i < (category_quota cats total).length := by
    rw [category_quota, List.length_map, List.enum_length]
    exact hi
  rw [List.getD_eq_getElem _ _ hlen]
  simp only [category_quota, List.getElem_map, List.getElem_enum]
  rw [List.getD_eq_getElem cats "" hi]

theorem cropStep_inv (len : ℕ) (defaults : String → ℚ) (total_pct : ℚ)
    (cat_total : ℕ) (acc : List (ℕ × ℤ) × ℤ) (x : ℕ × (ℕ × String)) :
    ((cropStep len defaults total_pct cat_total acc x).1.map (·.2)).sum
        + (cropStep len defaults total_pct cat_total acc x).2
      = (acc.1.map (·.2)).sum + acc.2 ∧
    (0 ≤ acc.2 → 0 ≤ (cropStep len defaults total_pct cat_total acc x).2) ∧
    acc.1.length ≤ (cropStep len defaults total_pct cat_total acc x).1.length := by
  simp only [cropStep]
  split
  · exact ⟨rfl, fun h => h, le_rfl⟩
  · refine ⟨?_, ?_, ?_⟩
    · simp only [List.map_append, List.sum_append, List.map_cons,
        List.sum_cons, List.map_nil, List.sum_nil]
      ring
    · intro h0
      dsimp only
      split
      · omega
      · have hmin : min (max 0 (pyRound (defaults x.2.2 / total_pct
            * cat_total))) acc.2 ≤ acc.2 := min_le_right _ _
        omega
    · simp

theorem crop_counts_loop_aux (xs : List (ℕ × (ℕ × String))) (len : ℕ)
    (defaults : String → ℚ) (total_pct : ℚ) (cat_total : ℕ)
    (init : List (ℕ × ℤ) × ℤ) :
    ((xs.foldl (cropStep len defaults total_pct cat_total) init).1.map
        (·.2)).sum
        + (xs.foldl (cropStep len defaults total_pct cat_total) init).2
      = (init.1.map (·.2)).sum + init.2 ∧
    (0 ≤ init.2 →
      0 ≤ (xs.foldl (cropStep len defaults total_pct cat_total) init).2) ∧
    init.1.length ≤
      (xs.foldl (cropStep len defaults total_pct cat_total) init).1.length := by
  induction xs generalizing init with
  | nil => exact ⟨rfl, fun h => h, le_rfl⟩
  | cons x t ih =>
      simp only [List.foldl_cons]
      have hstep := cropStep_inv len defaults total_pct cat_total init x
      obtain ⟨h1, h2, h3⟩ :=
        ih (cropStep len defaults total_pct cat_total init x)
      exact ⟨by rw [h1, hstep.1], fun h0 => h2 (hstep.2.1 h0),
        le_trans hstep.2.2 h3⟩

theorem addRemainderToLast_sum (l : List (ℕ × ℤ)) (r : ℤ) (h : l ≠ []) :
    ((addRemainderToLast l r).map (·.2)).sum = (l.map (·.2)).sum + r := by
  rw [addRemainderToLast, List.getLast?_eq_getLast l h]
  dsimp only
  conv_rhs => rw [← List.dropLast_append_getLast h]
  simp only [List.map_append, List.sum_append, List.map_cons, List.map_nil,
    List.sum_cons, List.sum_nil]
  ring

theorem crop_counts_loop_ne_nil (cat_crops : List (ℕ × String))
    (defaults : String → ℚ) (total_pct : ℚ) (cat_total : ℕ)
    (hex : ∃ c ∈ cat_crops, defaults c.2 ≠ 0) :
    (crop_counts_loop cat_crops defaults total_pct cat_total).1 ≠ [] := by
  obtain ⟨c, hc, hcp⟩ := hex
  obtain ⟨i, hi, hci⟩ := List.mem_iff_getElem.mp hc
  have hienum : (i, c) ∈ cat_crops.enum := by
    have hei : i < cat_crops.enum.length := by
      rw [List.enum_length]
      exact hi
    have he : cat_crops.enum[i] = (i, cat_crops[i]) :=
      List.getElem_enum _ _ _
    rw [hci] at he
    exact he ▸ List.getElem_mem _
  obtain ⟨l1, l2, hsplit⟩ := List.append_of_mem hienum
  rw [crop_counts_loop, hsplit, List.foldl_append, List.foldl_cons]
  set mid := l1.foldl (cropStep cat_crops.length defaults total_pct cat_total)
    ([], (cat_total : ℤ)) with hmid
  have hstep : 1 ≤ (cropStep cat_crops.length defaults total_pct cat_total
      mid (i, c)).1.length := by
    simp [cropStep, hcp]
  have hmono := (crop_counts_loop_aux l2 cat_crops.length defaults total_pct
    cat_total (cropStep cat_crops.length defaults total_pct cat_total
      mid (i, c))).2.2
  have h1 : 1 ≤ (l2.foldl (cropStep cat_crops.length defaults total_pct
      cat_total) (cropStep cat_crops.length defaults total_pct cat_total
      mid (i, c))).1.length := le_trans hstep hmono
  intro hnil
  rw [hnil] at h1
  simp at h1

theorem crop_counts_loop_inv (cat_crops : List (ℕ × String))
    (defaults : String → ℚ) (total_pct : ℚ) (cat_total : ℕ) :
    ((crop_counts_loop cat_crops defaults total_pct cat_total).1.map
        (·.2)).sum
        + (crop_counts_loop cat_crops defaults total_pct cat_total).2
      = cat_total ∧
    0 ≤ (crop_counts_loop cat_crops defaults total_pct cat_total).2 := by
  have haux := crop_counts_loop_aux cat_crops.enum cat_crops.length defaults
    total_pct cat_total ([], (cat_total : ℤ))
  simp only [List.map_nil, List.sum_nil, zero_add] at haux
  exact ⟨haux.1, haux.2.1 (by positivity)⟩

theorem crop_counts_sum_pct (cat_crops : List (ℕ × String))
    (defaults : String → ℚ) (cat_total : ℕ)
    (hp : 0 < (cat_crops.map (fun c => defaults c.2)).sum) :
    ((crop_counts cat_crops defaults cat_total).map (·.2)).sum = cat_total := by
  rw [crop_counts]
  rw [if_pos hp]
  obtain ⟨hsum, hrem0⟩ := crop_counts_loop_inv cat_crops defaults
    ((cat_crops.map (fun c => defaults c.2)).sum) cat_total
  have hex : ∃ c ∈ cat_crops, defaults c.2 ≠ 0 := by
    by_contra hall
    push_neg at hall
    have h0 : (cat_crops.map (fun c => defaults c.2)).sum = 0 :=
      List.sum_eq_zero (by
        intro x hx
        obtain ⟨c, hc, rfl⟩ := List.mem_map.mp hx
        exact hall c hc)
    rw [h0] at hp
    exact lt_irrefl _ hp
  have hne := crop_counts_loop_ne_nil cat_crops defaults
    ((cat_crops.map (fun c => defaults c.2)).sum) cat_total hex
  by_cases hc : 0 < (crop_counts_loop cat_crops defaults
      ((cat_crops.map (fun c => defaults c.2)).sum) cat_total).2 ∧
      (crop_counts_loop cat_crops defaults
        ((cat_crops.map (fun c => defaults c.2)).sum) cat_total).1 ≠ []
  · rw [if_pos hc, addRemainderToLast_sum _ _ hc.2]
    omega
  · rw [if_neg hc]
    have h0 : (crop_counts_loop cat_crops defaults
        ((cat_crops.map (fun c => defaults c.2)).sum) cat_total).2 = 0 := by
      rcases Classical.em (0 < (crop_counts_loop cat_crops defaults
          ((cat_crops.map (fun c => defaults c.2)).sum) cat_total).2) with
        h | h
      · exact absurd ⟨h, hne⟩ hc
      · omega
    omega

theorem list_sum_map_cast (l : List ℕ) :
    (l.map (fun m : ℕ => (m : ℤ))).sum = (l.sum : ℤ) := by
  induction l with
  | nil => simp
  | cons x t ih =>
      simp only [List.map_cons, List.sum_cons, ih]
      push_cast
      ring

theorem crop_counts_equal (cat_crops : List (ℕ × String))
    (defaults : String → ℚ) (cat_total : ℕ)
    (hp : ¬0 < (cat_crops.map (fun c => defaults c.2)).sum)
    (hne : cat_crops ≠ []) :
    ((crop_counts cat_crops defaults cat_total).map (·.2)).sum = cat_total ∧
    ∀ i, i < cat_crops.length →
      (crop_counts cat_crops defaults cat_total).getD i (0, 0) =
        ((cat_crops.getD i (0, "")).1,
          ((cat_total / cat_crops.length +
            if i < cat_total % cat_crops.length then 1 else 0 : ℕ) : ℤ)) := by
  constructor
  · rw [crop_counts, if_neg hp, List.map_map]
    rw [show ((fun x : ℕ × ℤ => x.2) ∘ (fun ic : ℕ × (ℕ × String) =>
        (ic.2.1, ((cat_total / cat_crops.length +
          (if ic.1 < cat_total % cat_crops.length then 1 else 0) : ℕ) : ℤ))))
      = (fun ic : ℕ × (ℕ × String) =>
          (((cat_total / cat_crops.length +
            (if ic.1 < cat_total % cat_crops.length then 1 else 0) : ℕ) : ℤ)))
      from rfl]
    rw [show (cat_crops.enum.map (fun ic : ℕ × (ℕ × String) =>
        (((cat_total / cat_crops.length +
          (if ic.1 < cat_total % cat_crops.length then 1 else 0) : ℕ) : ℤ))))
      = ((cat_crops.enum.map (fun ic : ℕ × (ℕ × String) =>
          (cat_total / cat_crops.length +
            (if ic.1 < cat_total % cat_crops.length then 1 else 0) : ℕ))).map
          (fun m : ℕ => (m : ℤ))) by rw [List.map_map]; rfl]
    rw [show (cat_crops.enum.map (fun ic : ℕ × (ℕ × String) =>
        (cat_total / cat_crops.length +
          (if ic.1 < cat_total % cat_crops.length then 1 else 0) : ℕ)))
      = ((cat_crops.enum.map Prod.fst).map (fun i : ℕ =>
          (cat_total / cat_crops.length +
            (if i < cat_total % cat_crops.length then 1 else 0) : ℕ)))
      by rw [List.map_map]; rfl]
    rw [List.enum_map_fst, list_sum_map_cast, sum_range_min]
    have hn : 0 < cat_crops.length := List.length_pos.mpr hne
    have h1 : cat_total % cat_crops.length < cat_crops.length :=
      Nat.mod_lt _ hn
    have h2 := Nat.mod_add_div cat_total cat_crops.length
    have h3 : cat_crops.length * (cat_total / cat_crops.length)
        + min (cat_total % cat_crops.length) cat_crops.length = cat_total := by
      omega
    rw [h3]
  · intro i hi
    have hlen : i < (crop_counts cat_crops defaults cat_total).length := by
      rw [crop_counts, if_neg hp, List.length_map, List.enum_length]
      exact hi
    rw [List.getD_eq_getElem _ _ hlen]
    have hlen2 : i < (cat_crops.enum.map (fun ic : ℕ × (ℕ × String) =>
        (ic.2.1, ((cat_total / cat_crops.length +
          (if ic.1 < cat_total % cat_crops.length then 1 else 0) : ℕ) : ℤ)))).length := by
      rw [List.length_map, List.enum_length]
      exact hi
    rw [show (crop_counts cat_crops defaults cat_total)[i]
        = (cat_crops.enum.map (fun ic : ℕ × (ℕ × String) =>
            (ic.2.1, ((cat_total / cat_crops.length +
              (if ic.1 < cat_total % cat_crops.length then 1 else 0) : ℕ) : ℤ))))[i] by
      congr 1
      rw [crop_counts, if_neg hp]]
    simp only [List.getElem_map, List.getElem_enum]
    rw [List.getD_eq_getElem cat_crops (0, "") hi]

/-- C2, counterexample.  For two crops at 50%/50% over 3 sub-beds the
Bed-First Initial Allocator hands the first crop `round(1.5) = 2` sub-beds
(half-to-even rounding) and the remainder `1` to the last crop, while the
Distribution Resolver of §4.2 floors both shares and gives the shortfall
unit to the later tied crop: `[(1,2),(2,1)] ≠ [(1,1),(2,2)]`, so the
per-crop quotas are not computed with the largest-remainder
technique of the resolver. -/
theorem C2_counterexample :
    crop_counts [(1, "A"), (2, "B")] exDefaults 3 = [(1, 2), (2, 1)] ∧
    resolve_distribution [(1, 50), (2, 50)] 3 = [(1, 1), (2, 2)] ∧
    crop_counts [(1, "A"), (2, "B")] exDefaults 3
      ≠ resolve_distribution [(1, 50), (2, 50)] 3 := by
  have hf : Int.fract ((3 : ℚ) / 2) = 1 / 2 := by
    rw [Int.fract]
    norm_num
  refine ⟨?_, by decide, ?_⟩
  · norm_num [crop_counts, crop_counts_loop, cropStep, exDefaults, pyRound,
      List.enum, List.enumFrom, addRemainderToLast, hf]
  · rw [show resolve_distribution [(1, 50), (2, 50)] 3 = [(1, 1), (2, 2)]
      from by decide]
    norm_num [crop_counts, crop_counts_loop, cropStep, exDefaults, pyRound,
      List.enum, List.enumFrom, addRemainderToLast, hf]

/-- C2, amended.  In the Bed-First Initial Allocator
(`_compute_auto_distribution`), per-category slot quotas equal the even
division of the total active slots of the garden by the rotation-sequence length
with the remainder given to the earliest categories (first conjunct: the
quotas sum to the total and each equals `total/n` plus one for the first
`total mod n` categories).  Per-crop quotas within each category are *not*
computed with the §4.2 largest-remainder technique (see the counterexample);
instead, with distribution defaults present (positive percentage total) the
code rounds each proportional share half-to-even, clamps it to the remaining
quota, and gives the whole remainder to the last crop — the counts still sum
to the category quota (second conjunct) — and with no defaults it falls back
to an equal split whose remainder goes to the earliest crops (third
conjunct). -/
theorem C2_auto_distribution (categories : List String) (total : ℕ)
    (cat_crops : List (ℕ × String)) (defaults : String → ℚ) (cat_total : ℕ) :
    (categories ≠ [] →
      ((category_quota categories total).map (·.2)).sum = total ∧
      ∀ i, i < categories.length →
        (category_quota categories total).getD i ("", 0) =
          (categories.getD i "",
            total / categories.length +
              if i < total % categories.length then 1 else 0)) ∧
    (0 < (cat_crops.map (fun c => defaults c.2)).sum →
      ((crop_counts cat_crops defaults cat_total).map (·.2)).sum
        = cat_total) ∧
    (¬0 < (cat_crops.map (fun c => defaults c.2)).sum → cat_crops ≠ [] →
      ((crop_counts cat_crops defaults cat_total).map (·.2)).sum
          = cat_total ∧
        ∀ i, i < cat_crops.length →
          (crop_counts cat_crops defaults cat_total).getD i (0, 0) =
            ((cat_crops.getD i (0, "")).1,
              ((cat_total / cat_crops.length +
                if i < cat_total % cat_crops.length then 1 else 0 : ℕ) : ℤ))) := by
  refine ⟨?_, ?_, ?_⟩
  · intro hne
    exact ⟨category_quota_sum categories total hne,
      fun i hi => category_quota_getD categories total i hi⟩
  · intro hp
    exact crop_counts_sum_pct cat_crops defaults cat_total hp
  · intro hp hne
    exact crop_counts_equal cat_crops defaults cat_total hp hne

/-- C2, witness: the amended theorem applied to a two-category sequence over
5 slots and to the 50/50 crop pair over 3 slots (defaults present), plus the
no-defaults equal split of 5 slots over two crops. -/
theorem C2_witness :
    (((category_quota ["c1", "c2"] 5).map (·.2)).sum = 5 ∧
      ∀ i, i < (["c1", "c2"] : List String).length →
        (category_quota ["c1", "c2"] 5).getD i ("", 0) =
          ((["c1", "c2"] : List String).getD i "",
            5 / (["c1", "c2"] : List String).length +
              if i < 5 % (["c1", "c2"] : List String).length then 1 else 0) : Prop) ∧
    ((crop_counts [(1, "A"), (2, "B")] exDefaults 3).map (·.2)).sum = 3 ∧
    ((crop_counts [(1, "A"), (2, "B")] (fun _ => 0) 5).map (·.2)).sum = 5 :=
  ⟨(C2_auto_distribution ["c1", "c2"] 5 [] (fun _ => 0) 0).1 (by decide),
    (C2_auto_distribution [] 0 [(1, "A"), (2, "B")] exDefaults 3).2.1
      (by norm_num [exDefaults]),
    ((C2_auto_distribution [] 0 [(1, "A"), (2, "B")] (fun _ => 0) 5).2.2
      (by norm_num) (by decide)).1⟩

/-! ## The relational store (database.py schema, restricted to the columns
the engine reads)

SQL queries become list operations: an inner join becomes `find?` on the
joined table (faithful when the joined key is unique, which the schema
enforces via primary keys), `ORDER BY` becomes an insertion sort on the
listed key (SQLite leaves ties unspecified; the embedding fixes them
stably, and every property proved below is tie-insensitive), and
`SELECT DISTINCT ... ORDER BY ... DESC` becomes `dedup` plus a descending
sort. -/

structure SubBed where
  id : ℕ
  garden_id : ℕ
  bed_number : ℕ
  sub_bed_position : ℕ
  is_reserve : Bool
  deriving DecidableEq

structure CyclePlan where
  id : ℕ
  sub_bed_id : ℕ
  garden_id : ℕ
  cycle : String
  planned_category : Option String
  planned_crop_id : Option ℕ
  actual_category : Option String
  actual_crop_id : Option ℕ
  is_override : Bool
  deriving DecidableEq

structure Crop where
  id : ℕ
  crop_name : String
  category : String
  family : Option String
  plant_id : Option ℕ
  deriving DecidableEq

structure Plant where
  id : ℕ
  family : Option String
  base_species_norm : Option String
  deriving DecidableEq

structure DistProfile where
  garden_id : ℕ
  cycle : String
  crop_id : ℕ
  target_percentage : ℚ
  deriving DecidableEq

structure RotationEntry where
  position : ℕ
  category : String
  deriving DecidableEq

structure Store where
  sub_beds : List SubBed
  cycle_plans : List CyclePlan
  crops : List Crop
  plants : List Plant
  distribution_profiles : List DistProfile
  rotation_sequence : List RotationEntry
  settings : List (String × String)
  deriving DecidableEq

/-! ### String ordering (SQLite TEXT collation: byte-wise) -/

/-- Byte-wise (code-point) strict order on character lists. -/
def charListLtB : List Char → List Char → Bool
  | _, [] => false
  | [], _ :: _ => true
  | a :: as, b :: bs =>
      if a.val < b.val then true
      else if b.val < a.val then false
      else charListLtB as bs

def strLtB (a b : String) : Bool := charListLtB a.data b.data

/-! ### Query layer -/

/-- `ORDER BY position` on the rotation sequence. -/
def rotOrder (a b : RotationEntry) : Prop := a.position ≤ b.position

instance : DecidableRel rotOrder := fun a b => by
  unfold rotOrder; infer_instance

/-- `SELECT category FROM rotation_sequence ORDER BY position`. -/
def rotationCategories (s : Store) : List String :=
  (List.insertionSort rotOrder s.rotation_sequence).map (·.category)

structure ProfRow where
  crop_id : ℕ
  target_percentage : ℚ
  category : String
  crop_name : String
  deriving DecidableEq

/-- `ORDER BY c.category, dp.target_percentage DESC`. -/
def profOrder (a b : ProfRow) : Prop :=
  strLtB a.category b.category = true ∨
    (a.category = b.category ∧ b.target_percentage ≤ a.target_percentage)

instance : DecidableRel profOrder := fun a b => by
  unfold profOrder; infer_instance

/-- The distribution-profiles query of `assign_crops`
(rotation_engine.py 298-305). -/
def profilesQuery (s : Store) (g : ℕ) (c : String) : List ProfRow :=
  List.insertionSort profOrder
    (s.distribution_profiles.filterMap (fun dp =>
      if dp.garden_id = g ∧ dp.cycle = c then
        (s.crops.find? (fun cr => cr.id = dp.crop_id)).map (fun cr =>
          { crop_id := dp.crop_id, target_percentage := dp.target_percentage,
            category := cr.category, crop_name := cr.crop_name })
      else none))

structure PlanRow where
  plan_id : ℕ
  sub_bed_id : ℕ
  planned_category : Option String
  bed_number : ℕ
  sub_bed_position : ℕ
  deriving DecidableEq

/-- `ORDER BY sb.bed_number, sb.sub_bed_position`. -/
def planOrder (a b : PlanRow) : Prop :=
  a.bed_number < b.bed_number ∨
    (a.bed_number = b.bed_number ∧ a.sub_bed_position ≤ b.sub_bed_position)

instance : DecidableRel planOrder := fun a b => by
  unfold planOrder; infer_instance

/-- The cycle-plans query of `assign_crops` (rotation_engine.py 308-316):
non-reserve rows of (garden, cycle) joined with their sub-bed. -/
def plansQuery (s : Store) (g : ℕ) (c : String) : List PlanRow :=
  List.insertionSort planOrder
    (s.cycle_plans.filterMap (fun cp =>
      if cp.garden_id = g ∧ cp.cycle = c then
        (s.sub_beds.find? (fun sb => sb.id = cp.sub_bed_id)).bind (fun sb =>
          if sb.is_reserve = false then
            some { plan_id := cp.id, sub_bed_id := cp.sub_bed_id,
                   planned_category := cp.planned_category,
                   bed_number := sb.bed_number,
                   sub_bed_position := sb.sub_bed_position }
          else none)
      else none))

/-- `ORDER BY cycle DESC` (on distinct cycles, so ties cannot occur). -/
def cycleDescOrder (a b : String) : Prop := strLtB b a = true ∨ a = b

instance : DecidableRel cycleDescOrder := fun a b => by
  unfold cycleDescOrder; infer_instance

/-- `SELECT DISTINCT cycle FROM cycle_plans WHERE garden_id = ?
ORDER BY cycle DESC`. -/
def distinctCyclesDesc (s : Store) (g : ℕ) : List String :=
  List.insertionSort cycleDescOrder
    (((s.cycle_plans.filter (fun cp => cp.garden_id = g)).map (·.cycle)).dedup)

def LOOKBACK_CYCLES : ℕ := 5

/-- `all_cycle_list[cycle_idx+1 : cycle_idx+1+LOOKBACK_CYCLES]`, or the
first `LOOKBACK_CYCLES` entries when the cycle is unknown
(rotation_engine.py 326-330). -/
def pastCycles (s : Store) (g : ℕ) (c : String) : List String :=
  let all := distinctCyclesDesc s g
  if c ∈ all then
    ((all.drop ((all.indexOf c) + 1)).take LOOKBACK_CYCLES)
  else
    all.take LOOKBACK_CYCLES

structure HistEntry where
  cycles_ago : ℕ
  crop_id : Option ℕ
  category : Option String
  deriving DecidableEq

/-- The per-past-cycle history query (rotation_engine.py 402-409). -/
def historyRows (s : Store) (g : ℕ) (p : String) : List CyclePlan :=
  s.cycle_plans.filter (fun cp => cp.garden_id = g ∧ cp.cycle = p)

/-- `bed_history[sid]` (rotation_engine.py 399-418): history entries of one
sub-bed, most recent past cycle first; `COALESCE` is `Option.or`. -/
def bedHistory (s : Store) (g : ℕ) (c : String) (sid : ℕ) : List HistEntry :=
  (pastCycles s g c).enum.foldl (fun acc ip =>
    acc ++ ((historyRows s g ip.2).filter (fun cp => cp.sub_bed_id = sid)).map
      (fun cp => { cycles_ago := ip.1 + 1,
                   crop_id := cp.actual_crop_id.or cp.planned_crop_id,
                   category := cp.actual_category.or cp.planned_category })) []

/-! ### Crop taxonomy (rotation_engine.py 332-359) -/

/-- Python truthiness filter for optional strings: empty strings are falsy. -/
def truthy (o : Option String) : Option String :=
  match o with
  | some x => if x = "" then none else some x
  | none => none

structure TaxRow where
  crop_id : ℕ
  family : String
  species : String
  deriving DecidableEq

/-- The `crop_taxonomy` query (crops LEFT JOIN plants) followed by the
Python truthiness chains `plant_family or crop_family or ""` and
`base_species_norm or ""`. -/
def taxRows (s : Store) : List TaxRow :=
  s.crops.map (fun cr =>
    let plant := cr.plant_id.bind (fun pid =>
      s.plants.find? (fun p => p.id = pid))
    { crop_id := cr.id,
      family := (((truthy (plant.bind (·.family))).or
        (truthy cr.family)).getD ""),
      species := ((truthy (plant.bind (·.base_species_norm))).getD "") })

/-- `crop_to_family.get(crop_id, "")`; the dict is built in row order with
later rows overwriting earlier ones, hence the reverse search. -/
def crop_to_family (s : Store) (cid : ℕ) : String :=
  ((((taxRows s).reverse.find? (fun r => r.crop_id = cid)).map
    (·.family)).getD "")

/-- `crop_to_species.get(crop_id, "")`. -/
def crop_to_species (s : Store) (cid : ℕ) : String :=
  ((((taxRows s).reverse.find? (fun r => r.crop_id = cid)).map
    (·.species)).getD "")

/-- `crops_by_family[fam] - crop_id if fam else set()`; sets are used only
through membership, so a filtered list is an exact model. -/
def same_family_crops (s : Store) (cid : ℕ) : List ℕ :=
  let fam := crop_to_family s cid
  if fam = "" then []
  else (((taxRows s).filter (fun r => r.family = fam)).map (·.crop_id)).filter
    (fun x => x ≠ cid)

/-- `crops_by_species[sp] - crop_id if sp else set()`. -/
def same_species_crops (s : Store) (cid : ℕ) : List ℕ :=
  let sp := crop_to_species s cid
  if sp = "" then []
  else (((taxRows s).filter (fun r => r.species = sp)).map (·.crop_id)).filter
    (fun x => x ≠ cid)

/-! ### Scoring (rotation_engine.py 27-37, 439-471) -/

def PENALTY_TABLE (n : ℕ) : ℤ :=
  if n = 1 then -50 else if n = 2 then -30 else if n = 3 then -15
  else if n = 4 then -5 else if n = 5 then -1 else 0

def SPECIES_PENALTY_TABLE (n : ℕ) : ℤ :=
  if n = 1 then -35 else if n = 2 then -20 else if n = 3 then -10
  else if n = 4 then -3 else 0

def FAMILY_PENALTY_TABLE (n : ℕ) : ℤ :=
  if n = 1 then -20 else if n = 2 then -10 else if n = 3 then -5 else 0

def DIVERSITY_BONUS : ℤ := 2

/-- Python `x in some_set` where `x` may be `None` (never a member). -/
def optMem (o : Option ℕ) (l : List ℕ) : Bool :=
  match o with
  | some v => l.contains v
  | none => false

/-- The contribution of one same-category history entry to a bed score
(rotation_engine.py 454-469); dict `.get(cycles_ago, 0)` is the
zero-beyond-range table lookup. -/
def entryDelta (crop_id : ℕ) (same_species same_family : List ℕ)
    (h : HistEntry) : ℤ :=
  if h.crop_id = some crop_id then PENALTY_TABLE h.cycles_ago
  else if optMem h.crop_id same_species then SPECIES_PENALTY_TABLE h.cycles_ago
  else if optMem h.crop_id same_family then FAMILY_PENALTY_TABLE h.cycles_ago
  else DIVERSITY_BONUS

/-- The score of one bed for one candidate crop
(rotation_engine.py 446-469). -/
def scoreBed (category : String) (history : List HistEntry) (crop_id : ℕ)
    (same_species same_family : List ℕ) : ℤ :=
  let cat_history := history.filter (fun h => h.category = some category)
  if cat_history.isEmpty then 0
  else cat_history.foldl
    (fun sc h => sc + entryDelta crop_id same_species same_family h) 0

/-! ### Per-category assignment (rotation_engine.py 361-483) -/

/-- `crop_targets.sort(key=target_count, reverse=True)` order: descending
counts; insertion sort keeps equal counts in profile order, as the stable
Python sort does. -/
def targetGe (a b : ℕ × ℤ) : Prop := b.2 ≤ a.2

instance : DecidableRel targetGe := fun a b => by
  unfold targetGe; infer_instance

/-- `scored_beds.sort(key=(-score, sub_bed_id))` order on
`(score, sub_bed_id, plan_id)` triples. -/
def scoredGe (a b : ℤ × ℕ × ℕ) : Prop :=
  b.1 < a.1 ∨ (a.1 = b.1 ∧ a.2.1 ≤ b.2.1)

instance : DecidableRel scoredGe := fun a b => by
  unfold scoredGe; infer_instance

/-- Resolved `(crop_id, target_count)` pairs in profile order
(rotation_engine.py 383-394; the crop name carried along in the source is
never used by the assignment logic). -/
def cropTargets (cat_profiles : List ProfRow) (n : ℕ) : List (ℕ × ℤ) :=
  resolve_distribution
    (cat_profiles.map (fun p => (p.crop_id, p.target_percentage))) n

def sortedCropTargets (cat_profiles : List ProfRow) (n : ℕ) : List (ℕ × ℤ) :=
  List.insertionSort targetGe (cropTargets cat_profiles n)

/-- One iteration of the `for crop_info in crop_targets` loop
(rotation_engine.py 424-483).  The state is
`(assigned_bed_ids, updates so far)`; an update `(plan_id, some crop)` is
the `UPDATE cycle_plans SET planned_crop_id` statement. -/
def assignFoldStep (category : String) (bedHist : ℕ → List HistEntry)
    (ssp sfam : ℕ → List ℕ) (cat_beds : List PlanRow)
    (acc : List ℕ × List (ℕ × Option ℕ)) (t : ℕ × ℤ) :
    List ℕ × List (ℕ × Option ℕ) :=
  if t.2 ≤ 0 then acc
  else
    let scored := cat_beds.filterMap (fun b =>
      if b.sub_bed_id ∈ acc.1 then none
      else some (scoreBed category (bedHist b.sub_bed_id) t.1 (ssp t.1)
        (sfam t.1), b.sub_bed_id, b.plan_id))
    let sorted := List.insertionSort scoredGe scored
    let chosen := sorted.take (min t.2.toNat sorted.length)
    (acc.1 ++ chosen.map (fun x => x.2.1),
      acc.2 ++ chosen.map (fun x => (x.2.2, some t.1)))

/-- The updates issued while processing one category
(rotation_engine.py 362-483): first the clearing updates
(`SET planned_crop_id = NULL` for every bed of the category), then the
assignment updates. -/
def categoryUpdates (category : String) (bedHist : ℕ → List HistEntry)
    (ssp sfam : ℕ → List ℕ) (plans : List PlanRow)
    (profiles : List ProfRow) : List (ℕ × Option ℕ) :=
  let cat_beds := plans.filter (fun p => p.planned_category = some category)
  if cat_beds.isEmpty then []
  else
    let clears : List (ℕ × Option ℕ) :=
      cat_beds.map (fun b => (b.plan_id, none))
    let cat_profiles := profiles.filter (fun p => p.category = category)
    if cat_profiles.isEmpty then clears
    else
      clears ++ ((sortedCropTargets cat_profiles cat_beds.length).foldl
        (assignFoldStep category bedHist ssp sfam cat_beds) ([], [])).2

/-- All updates issued by one `assign_crops` call, in execution order.
In the source the `UPDATE` statements are interleaved with the loop, but
every value the loop reads is either loaded before the first update or
(the history look-back) touches only rows of strictly older cycles, which
the updates never target, so collecting the updates first is
observationally equal. -/
def assignUpdates (s : Store) (g : ℕ) (c : String) : List (ℕ × Option ℕ) :=
  (rotationCategories s).foldl (fun acc category =>
    acc ++ categoryUpdates category (bedHistory s g c)
      (same_species_crops s) (same_family_crops s)
      (plansQuery s g c) (profilesQuery s g c)) []

/-- `UPDATE cycle_plans SET planned_crop_id = v WHERE id = plan_id`. -/
def applyUpdStep (r : CyclePlan) (u : ℕ × Option ℕ) : CyclePlan :=
  if u.1 = r.id then { r with planned_crop_id := u.2 } else r

def applyUpd (r : CyclePlan) (us : List (ℕ × Option ℕ)) : CyclePlan :=
  us.foldl applyUpdStep r

def applyUpdates (s : Store) (us : List (ℕ × Option ℕ)) : Store :=
  { s with cycle_plans := s.cycle_plans.map (fun r => applyUpd r us) }

/-- `assign_crops(garden_id, cycle)` (rotation_engine.py 269-492): returns
the committed store, the success flag and the error.  The only failure path
in the source is the catch-all `except` around storage faults, which the
store model cannot raise, so the embedded operation always commits and
returns `(True, None)`. -/
def assign_crops (s : Store) (g : ℕ) (c : String) :
    Store × Bool × Option String :=
  (applyUpdates s (assignUpdates s g c), true, none)

/-! ### Cycle generation (rotation_engine.py 97-222) -/

/-- `get_setting(key, default)` (database.py). -/
def get_setting (s : Store) (key dflt : String) : String :=
  (((s.settings.find? (fun kv => kv.1 = key)).map (·.2)).getD dflt)

/-- `INSERT OR REPLACE INTO settings`. -/
def set_setting (s : Store) (key value : String) : Store :=
  if (s.settings.find? (fun kv => kv.1 = key)).isSome then
    let updated := s.settings.map
      (fun kv => if kv.1 = key then (key, value) else kv)
    { s with settings := updated }
  else
    { s with settings := s.settings ++ [(key, value)] }

structure PrevPlanRow where
  plan : CyclePlan
  bed_number : ℕ
  sub_bed_position : ℕ
  is_reserve : Bool
  deriving DecidableEq

def prevPlanOrder (a b : PrevPlanRow) : Prop :=
  a.bed_number < b.bed_number ∨
    (a.bed_number = b.bed_number ∧ a.sub_bed_position ≤ b.sub_bed_position)

instance : DecidableRel prevPlanOrder := fun a b => by
  unfold prevPlanOrder; infer_instance

/-- The previous-cycle query of `generate_next_cycle`
(rotation_engine.py 134-141): plans joined with sub-bed metadata. -/
def prevPlansQuery (s : Store) (g : ℕ) (c : String) : List PrevPlanRow :=
  List.insertionSort prevPlanOrder
    (s.cycle_plans.filterMap (fun cp =>
      if cp.garden_id = g ∧ cp.cycle = c then
        (s.sub_beds.find? (fun sb => sb.id = cp.sub_bed_id)).map (fun sb =>
          { plan := cp, bed_number := sb.bed_number,
            sub_bed_position := sb.sub_bed_position,
            is_reserve := sb.is_reserve })
      else none))

/-- Python `actual_category or planned_category` (empty strings are
falsy). -/
def effectiveCategory (actual planned : Option String) : Option String :=
  match actual with
  | some s => if s = "" then planned else some s
  | none => planned

/-- `next_category_map[effective]` with the first-category fallback
(rotation_engine.py 154-187); the rotation categories are unique (schema
constraint), so the first index is the dict index. -/
def nextCatFor (cats : List String) (eff : Option String) : Option String :=
  match eff with
  | some e =>
      if e ≠ "" ∧ e ∈ cats then
        some (cats.getD
          ((((cats.findIdx? (fun x => x = e)).getD 0) + 1) % cats.length) "")
      else if cats ≠ [] then some (cats.headD "") else none
  | none => if cats ≠ [] then some (cats.headD "") else none

/-- `generate_next_cycle(garden_id)` (rotation_engine.py 97-222): returns
`(store, new_cycle_id, error)`.  `backup_db` only writes a backup file and
is a no-op on the store.  A `ValueError` out of `int(...)` or
`compute_next_cycle_id` is caught by the catch-all handler, which rolls
back (no write has happened yet) and returns the generic error. -/
def generate_next_cycle (s : Store) (g : ℕ) :
    Store × Option String × Option String :=
  match (distinctCyclesDesc s g).head? with
  | none => (s, none, some "Aucun cycle precedent trouve")
  | some prev_cycle =>
    let prev_plans := prevPlansQuery s g prev_cycle
    if prev_plans.isEmpty then
      (s, none, some "Le cycle precedent ne contient pas de donnees")
    else
      let rotation_seq := List.insertionSort rotOrder s.rotation_sequence
      if rotation_seq.isEmpty then
        (s, none, some "La sequence de rotation pas configuree")
      else
        let categories := rotation_seq.map (·.category)
        match pyInt (get_setting s "cycles_per_year" "2") with
        | none => (s, none, some "Erreur lors de la generation")
        | some cpy =>
          match compute_next_cycle_id prev_cycle cpy with
          | .error _ => (s, none, some "Erreur lors de la generation")
          | .ok new_cycle =>
            if (s.cycle_plans.filter (fun cp =>
                cp.garden_id = g ∧ cp.cycle = new_cycle)).length ≠ 0 then
              (s, none, some "Le cycle existe deja pour ce jardin")
            else
              let maxId := (s.cycle_plans.map (·.id)).foldr max 0
              let new_records :=
                ((prev_plans.filter (fun pp => pp.is_reserve = false)).enum).map
                  (fun ip =>
                    ({ id := maxId + 1 + ip.1,
                       sub_bed_id := ip.2.plan.sub_bed_id,
                       garden_id := g,
                       cycle := new_cycle,
                       planned_category := nextCatFor categories
                         (effectiveCategory ip.2.plan.actual_category
                           ip.2.plan.planned_category),
                       planned_crop_id := none,
                       actual_category := none,
                       actual_crop_id := none,
                       is_override := false } : CyclePlan))
              let s2 := { s with cycle_plans := s.cycle_plans ++ new_records }
              (set_setting s2 "current_cycle" new_cycle, some new_cycle, none)

/-! ## C4: the scoring rule -/

/-- The per-entry scoring rule exactly as the claim states it, penalty
tables written out literally (zero beyond each range, +2 diversity
bonus). -/
def claimEntryScore (crop_id : ℕ) (same_species same_family : List ℕ)
    (h : HistEntry) : ℤ :=
  if h.crop_id = some crop_id then
    (if h.cycles_ago = 1 then -50 else if h.cycles_ago = 2 then -30
     else if h.cycles_ago = 3 then -15 else if h.cycles_ago = 4 then -5
     else if h.cycles_ago = 5 then -1 else 0)
  else if optMem h.crop_id same_species then
    (if h.cycles_ago = 1 then -35 else if h.cycles_ago = 2 then -20
     else if h.cycles_ago = 3 then -10 else if h.cycles_ago = 4 then -3
     else 0)
  else if optMem h.crop_id same_family then
    (if h.cycles_ago = 1 then -20 else if h.cycles_ago = 2 then -10
     else if h.cycles_ago = 3 then -5 else 0)
  else 2

theorem foldl_add_eq_sum {α : Type} (l : List α) (f : α → ℤ) (a : ℤ) :
    l.foldl (fun sc h => sc + f h) a = a + (l.map f).sum := by
  induction l generalizing a with
  | nil => simp
  | cons x t ih =>
      simp only [List.foldl_cons, List.map_cons, List.sum_cons, ih]
      ring

theorem mem_foldl_append {α β : Type} (l : List α) (g : α → List β)
    (init : List β) :
    ∀ x ∈ l.foldl (fun acc a => acc ++ g a) init, x ∈ init ∨ ∃ a ∈ l, x ∈ g a := by
  induction l generalizing init with
  | nil => exact fun x hx => Or.inl hx
  | cons b t ih =>
      intro x hx
      simp only [List.foldl_cons] at hx
      rcases ih (init ++ g b) x hx with h | ⟨a, ha, hxa⟩
      · rcases List.mem_append.mp h with h | h
        · exact Or.inl h
        · exact Or.inr ⟨b, by simp, h⟩
      · exact Or.inr ⟨a, List.mem_cons_of_mem _ ha, hxa⟩

theorem pastCycles_length_le (s : Store) (g : ℕ) (c : String) :
    (pastCycles s g c).length ≤ LOOKBACK_CYCLES := by
  rw [pastCycles]
  split
  · rw [List.length_take]
    exact min_le_left _ _
  · rw [List.length_take]
    exact min_le_left _ _

/-- C4.  The score of a slot for a candidate crop is the sum, over its
history entries whose effective category equals the category being
processed, of the per-entry rule stated by the claim (same-crop penalties
-50, -30, -15, -5, -1; same-species -35, -20, -10, -3; same-family -20, -10, -5;
else the +2 diversity bonus, all zero beyond the table ranges); a slot with
no matching-category history scores exactly 0; and every history entry the
assignment builds has `1 ≤ cycles_ago ≤ 5` (up to the 5 most recent prior
cycles). -/
theorem C4_scoring (category : String) (history : List HistEntry)
    (crop_id : ℕ) (ss sf : List ℕ) (s : Store) (g : ℕ) (c : String)
    (sid : ℕ) :
    scoreBed category history crop_id ss sf
      = ((history.filter (fun h => h.category = some category)).map
          (claimEntryScore crop_id ss sf)).sum ∧
    (history.filter (fun h => h.category = some category) = [] →
      scoreBed category history crop_id ss sf = 0) ∧
    (∀ h ∈ bedHistory s g c sid, 1 ≤ h.cycles_ago ∧ h.cycles_ago ≤ 5) := by
  have hdelta : ∀ h, entryDelta crop_id ss sf h = claimEntryScore crop_id ss sf h :=
    fun h => rfl
  refine ⟨?_, ?_, ?_⟩
  · rw [scoreBed]
    split
    · rename_i hemp
      rw [List.isEmpty_iff] at hemp
      rw [hemp]
      rfl
    · rw [foldl_add_eq_sum, zero_add]
      rfl
  · intro hemp
    rw [scoreBed]
    rw [show (history.filter (fun h => h.category = some category)).isEmpty
        = true by rw [hemp]; rfl]
    simp
  · intro h hh
    rcases mem_foldl_append _ _ _ h hh with hinit | ⟨ip, hip, hmem⟩
    · simp at hinit
    · obtain ⟨cp, _, rfl⟩ := List.mem_map.mp hmem
      have hlt := (List.mem_enum hip).1
      have hle := pastCycles_length_le s g c
      rw [LOOKBACK_CYCLES] at hle
      simp only []
      omega

/-- C4, witness: a slot that hosted the candidate crop one cycle ago and an
unrelated crop two cycles ago scores `-50 + 2 = -48` under both the code
rule and the claim rule. -/
theorem C4_witness :
    scoreBed "Leg" [⟨1, some 7, some "Leg"⟩, ⟨2, some 9, some "Leg"⟩] 7 [] []
      = ((([⟨1, some 7, some "Leg"⟩,
          ⟨2, some 9, some "Leg"⟩] : List HistEntry).filter
            (fun h => h.category = some "Leg")).map
          (claimEntryScore 7 [] [])).sum ∧
    scoreBed "Leg" [⟨1, some 7, some "Leg"⟩, ⟨2, some 9, some "Leg"⟩] 7 [] []
      = -48 :=
  ⟨(C4_scoring "Leg" [⟨1, some 7, some "Leg"⟩, ⟨2, some 9, some "Leg"⟩] 7
      [] [] ⟨[], [], [], [], [], [], []⟩ 1 "2026A" 1).1,
    by decide⟩

/-! ## C10: `assign_crops` on unconfigured inputs -/

theorem foldl_append_eq_join {α β : Type} (l : List α) (f : α → List β)
    (init : List β) :
    l.foldl (fun acc a => acc ++ f a) init = init ++ (l.map f).flatten := by
  induction l generalizing init with
  | nil => simp
  | cons a t ih =>
      simp only [List.foldl_cons, List.map_cons, List.flatten_cons, ih,
        List.append_assoc]

theorem assignUpdates_eq_join (s : Store) (g : ℕ) (c : String) :
    assignUpdates s g c
      = ((rotationCategories s).map (fun category =>
          categoryUpdates category (bedHistory s g c)
            (same_species_crops s) (same_family_crops s)
            (plansQuery s g c) (profilesQuery s g c))).flatten := by
  rw [assignUpdates, foldl_append_eq_join]
  rfl

theorem applyUpdates_nil (s : Store) : applyUpdates s [] = s := by
  rw [applyUpdates]
  simp [applyUpd]

theorem plansQuery_eq_nil (s : Store) (g : ℕ) (c : String)
    (h : ∀ cp ∈ s.cycle_plans, ¬(cp.garden_id = g ∧ cp.cycle = c)) :
    plansQuery s g c = [] := by
  rw [plansQuery]
  rw [List.filterMap_eq_nil_iff.mpr (fun cp hcp => by
    rw [if_neg (h cp hcp)])]
  rfl

theorem profilesQuery_eq_nil (s : Store) (g : ℕ) (c : String)
    (h : ∀ dp ∈ s.distribution_profiles, ¬(dp.garden_id = g ∧ dp.cycle = c)) :
    profilesQuery s g c = [] := by
  rw [profilesQuery]
  rw [List.filterMap_eq_nil_iff.mpr (fun dp hdp => by
    rw [if_neg (h dp hdp)])]
  rfl

/-- C10.  `assign_crops` returns success (`(True, None)`) unconditionally —
unlike `generate_next_cycle`, it never signals a missing rotation sequence
or an empty cycle.  With an empty rotation sequence, or with no CyclePlan
rows for the (garden, cycle), it issues no updates and leaves the store
unchanged; with no DistributionProfile rows for the (garden, cycle), every
update it issues is a clearing update (`planned_crop_id = NULL`), and every
slot of a category that has slots does receive such a clearing update
before the category is skipped. -/
theorem C10_assign_unconfigured (s : Store) (g : ℕ) (c : String) :
    ((assign_crops s g c).2.1 = true ∧ (assign_crops s g c).2.2 = none) ∧
    (s.rotation_sequence = [] →
      assignUpdates s g c = [] ∧ (assign_crops s g c).1 = s) ∧
    ((∀ cp ∈ s.cycle_plans, ¬(cp.garden_id = g ∧ cp.cycle = c)) →
      assignUpdates s g c = [] ∧ (assign_crops s g c).1 = s) ∧
    ((∀ dp ∈ s.distribution_profiles, ¬(dp.garden_id = g ∧ dp.cycle = c)) →
      (∀ u ∈ assignUpdates s g c, u.2 = none) ∧
      (∀ category ∈ rotationCategories s, ∀ b ∈ plansQuery s g c,
        b.planned_category = some category →
        (b.plan_id, (none : Option ℕ)) ∈ assignUpdates s g c)) := by
  refine ⟨⟨rfl, rfl⟩, ?_, ?_, ?_⟩
  · intro hseq
    have h1 : assignUpdates s g c = [] := by
      rw [assignUpdates, rotationCategories, hseq]
      rfl
    exact ⟨h1, by rw [assign_crops, h1, applyUpdates_nil]⟩
  · intro hrows
    have hplans := plansQuery_eq_nil s g c hrows
    have h1 : assignUpdates s g c = [] := by
      rw [assignUpdates_eq_join]
      rw [show ((rotationCategories s).map (fun category =>
          categoryUpdates category (bedHistory s g c)
            (same_species_crops s) (same_family_crops s)
            (plansQuery s g c) (profilesQuery s g c)))
        = (rotationCategories s).map (fun _ => []) from
        List.map_congr_left (fun category _ => by
          rw [hplans, categoryUpdates]
          rfl)]
      simp
    exact ⟨h1, by rw [assign_crops, h1, applyUpdates_nil]⟩
  · intro hprof
    have hpq := profilesQuery_eq_nil s g c hprof
    have hcat : ∀ category,
        categoryUpdates category (bedHistory s g c)
          (same_species_crops s) (same_family_crops s)
          (plansQuery s g c) (profilesQuery s g c)
        = ((plansQuery s g c).filter
            (fun p => p.planned_category = some category)).map
          (fun b => (b.plan_id, (none : Option ℕ))) := by
      intro category
      rw [categoryUpdates, hpq]
      split
      · rename_i hemp
        rw [List.isEmpty_iff] at hemp
        rw [hemp]
        rfl
      · rfl
    constructor
    · intro u hu
      rw [assignUpdates_eq_join] at hu
      rcases List.mem_flatten.mp hu with ⟨part, hpart, hupart⟩
      obtain ⟨category, _, rfl⟩ := List.mem_map.mp hpart
      rw [hcat category] at hupart
      obtain ⟨b, _, rfl⟩ := List.mem_map.mp hupart
      rfl
    · intro category hcatmem b hb hbcat
      rw [assignUpdates_eq_join]
      apply List.mem_flatten.mpr
      refine ⟨_, List.mem_map.mpr ⟨category, hcatmem, rfl⟩, ?_⟩
      rw [hcat category]
      exact List.mem_map.mpr ⟨b, List.mem_filter.mpr
        ⟨hb, by rw [hbcat]; simp⟩, rfl⟩

/-- C10, witness: an empty store — `assign_crops` succeeds, issues no
updates and leaves the store unchanged. -/
theorem C10_witness :
    ((assign_crops ⟨[], [], [], [], [], [], []⟩ 1 "2026A").2.1 = true ∧
      (assign_crops ⟨[], [], [], [], [], [], []⟩ 1 "2026A").2.2 = none) ∧
    (assignUpdates ⟨[], [], [], [], [], [], []⟩ 1 "2026A" = [] ∧
      (assign_crops ⟨[], [], [], [], [], [], []⟩ 1 "2026A").1
        = ⟨[], [], [], [], [], [], []⟩) :=
  ⟨(C10_assign_unconfigured ⟨[], [], [], [], [], [], []⟩ 1 "2026A").1,
    (C10_assign_unconfigured ⟨[], [], [], [], [], [], []⟩ 1 "2026A").2.1 rfl⟩

/-! ## Update application: characterization lemmas -/

theorem applyUpdStep_fields (r : CyclePlan) (u : ℕ × Option ℕ) :
    (applyUpdStep r u).id = r.id ∧
    (applyUpdStep r u).sub_bed_id = r.sub_bed_id ∧
    (applyUpdStep r u).garden_id = r.garden_id ∧
    (applyUpdStep r u).cycle = r.cycle ∧
    (applyUpdStep r u).planned_category = r.planned_category ∧
    (applyUpdStep r u).actual_category = r.actual_category ∧
    (applyUpdStep r u).actual_crop_id = r.actual_crop_id ∧
    (applyUpdStep r u).is_override = r.is_override := by
  rw [applyUpdStep]
  split <;> exact ⟨rfl, rfl, rfl, rfl, rfl, rfl, rfl, rfl⟩

/-- `applyUpd` changes nothing but `planned_crop_id`. -/
theorem applyUpd_fields (r : CyclePlan) (us : List (ℕ × Option ℕ)) :
    (applyUpd r us).id = r.id ∧
    (applyUpd r us).sub_bed_id = r.sub_bed_id ∧
    (applyUpd r us).garden_id = r.garden_id ∧
    (applyUpd r us).cycle = r.cycle ∧
    (applyUpd r us).planned_category = r.planned_category ∧
    (applyUpd r us).actual_category = r.actual_category ∧
    (applyUpd r us).actual_crop_id = r.actual_crop_id ∧
    (applyUpd r us).is_override = r.is_override := by
  induction us generalizing r with
  | nil => exact ⟨rfl, rfl, rfl, rfl, rfl, rfl, rfl, rfl⟩
  | cons u t ih =>
      rw [show applyUpd r (u :: t) = applyUpd (applyUpdStep r u) t from rfl]
      obtain ⟨a1, a2, a3, a4, a5, a6, a7, a8⟩ := ih (applyUpdStep r u)
      obtain ⟨b1, b2, b3, b4, b5, b6, b7, b8⟩ := applyUpdStep_fields r u
      exact ⟨a1.trans b1, a2.trans b2, a3.trans b3, a4.trans b4,
        a5.trans b5, a6.trans b6, a7.trans b7, a8.trans b8⟩

theorem applyUpd_id (r : CyclePlan) (us : List (ℕ × Option ℕ)) :
    (applyUpd r us).id = r.id := (applyUpd_fields r us).1

/-- Manual extensionality for `CyclePlan`. -/
theorem cyclePlan_ext (a b : CyclePlan)
    (h1 : a.id = b.id) (h2 : a.sub_bed_id = b.sub_bed_id)
    (h3 : a.garden_id = b.garden_id) (h4 : a.cycle = b.cycle)
    (h5 : a.planned_category = b.planned_category)
    (h6 : a.planned_crop_id = b.planned_crop_id)
    (h7 : a.actual_category = b.actual_category)
    (h8 : a.actual_crop_id = b.actual_crop_id)
    (h9 : a.is_override = b.is_override) : a = b := by
  cases a
  cases b
  simp only [] at h1 h2 h3 h4 h5 h6 h7 h8 h9
  subst h1 h2 h3 h4 h5 h6 h7 h8 h9
  rfl

/-- A row's final `planned_crop_id` is the value of the LAST update that
targets its id (UPDATE statements execute in order). -/
theorem applyUpd_planned (r : CyclePlan) (us : List (ℕ × Option ℕ)) :
    (applyUpd r us).planned_crop_id =
      match us.reverse.find? (fun u => u.1 = r.id) with
      | none => r.planned_crop_id
      | some u => u.2 := by
  induction us using List.reverseRecOn with
  | nil => rfl
  | append_singleton t u ih =>
      have hfold : applyUpd r (t ++ [u]) = applyUpdStep (applyUpd r t) u := by
        rw [applyUpd, applyUpd, List.foldl_append]
        rfl
      rw [hfold, List.reverse_append, List.reverse_singleton,
        List.singleton_append]
      by_cases hc : u.1 = r.id
      · rw [show List.find? (fun v => decide (v.1 = r.id)) (u :: t.reverse)
            = some u from List.find?_cons_of_pos _ (by simpa using hc)]
        rw [applyUpdStep, if_pos ((applyUpd_id r t).symm ▸ hc)]
      · rw [show List.find? (fun v => decide (v.1 = r.id)) (u :: t.reverse)
            = List.find? (fun v => decide (v.1 = r.id)) t.reverse from
          List.find?_cons_of_neg _ (by simpa using hc)]
        rw [applyUpdStep, if_neg (fun h => hc (h.trans (applyUpd_id r t)))]
        exact ih

/-- Re-applying the same update list is a no-op: the last matching update
wins both times. -/
theorem applyUpd_idem (r : CyclePlan) (us : List (ℕ × Option ℕ)) :
    applyUpd (applyUpd r us) us = applyUpd r us := by
  obtain ⟨f1, f2, f3, f4, f5, f6, f7, f8⟩ := applyUpd_fields (applyUpd r us) us
  refine cyclePlan_ext _ _ f1 f2 f3 f4 f5 ?_ f6 f7 f8
  rw [applyUpd_planned (applyUpd r us) us, applyUpd_id r us,
    applyUpd_planned r us]
  cases hF : us.reverse.find? (fun u => u.1 = r.id) <;> rfl

theorem applyUpd_of_no_match (r : CyclePlan) (us : List (ℕ × Option ℕ))
    (h : ∀ u ∈ us, u.1 ≠ r.id) : applyUpd r us = r := by
  induction us with
  | nil => rfl
  | cons u t ih =>
      rw [show applyUpd r (u :: t) = applyUpd (applyUpdStep r u) t from rfl,
        applyUpdStep, if_neg (h u (List.mem_cons_self u t))]
      exact ih (fun v hv => h v (List.mem_cons_of_mem u hv))

/-! ## Query membership lemmas -/

/-- Every row of the assignment plans query joins a (garden, cycle) plan
with a non-reserve sub-bed. -/
theorem mem_plansQuery (s : Store) (g : ℕ) (c : String) (b : PlanRow)
    (hb : b ∈ plansQuery s g c) :
    ∃ cp ∈ s.cycle_plans, cp.garden_id = g ∧ cp.cycle = c ∧
      b.plan_id = cp.id ∧ b.sub_bed_id = cp.sub_bed_id ∧
      ∃ sb ∈ s.sub_beds, sb.id = cp.sub_bed_id ∧ sb.is_reserve = false := by
  rw [plansQuery] at hb
  replace hb := (List.perm_insertionSort planOrder _).mem_iff.mp hb
  obtain ⟨cp, hcp, hf⟩ := List.mem_filterMap.mp hb
  by_cases hgc : cp.garden_id = g ∧ cp.cycle = c
  · rw [if_pos hgc] at hf
    obtain ⟨sb, hsb, hf2⟩ := Option.bind_eq_some.mp hf
    by_cases hres : sb.is_reserve = false
    · rw [if_pos hres] at hf2
      have hbval := Option.some.inj hf2
      have hps := List.find?_some hsb
      refine ⟨cp, hcp, hgc.1, hgc.2, ?_, ?_, sb,
        List.mem_of_find?_eq_some hsb, of_decide_eq_true hps, hres⟩
      · rw [← hbval]
      · rw [← hbval]
    · rw [if_neg hres] at hf2
      exact absurd hf2 (by simp)
  · rw [if_neg hgc] at hf
    exact absurd hf (by simp)

/-- Every row of the previous-cycle query carries the reserve flag of an
existing sub-bed. -/
theorem mem_prevPlansQuery (s : Store) (g : ℕ) (c : String) (row : PrevPlanRow)
    (hr : row ∈ prevPlansQuery s g c) :
    ∃ sb ∈ s.sub_beds, sb.id = row.plan.sub_bed_id ∧
      sb.is_reserve = row.is_reserve := by
  rw [prevPlansQuery] at hr
  replace hr := (List.perm_insertionSort prevPlanOrder _).mem_iff.mp hr
  obtain ⟨cp, hcp, hf⟩ := List.mem_filterMap.mp hr
  by_cases hgc : cp.garden_id = g ∧ cp.cycle = c
  · rw [if_pos hgc] at hf
    obtain ⟨sb, hsb, hval⟩ := Option.map_eq_some'.mp hf
    have hps := List.find?_some hsb
    refine ⟨sb, List.mem_of_find?_eq_some hsb, ?_, ?_⟩
    · rw [← hval]
      exact of_decide_eq_true hps
    · rw [← hval]
  · rw [if_neg hgc] at hf
    exact absurd hf (by simp)

theorem set_setting_cycle_plans (s : Store) (k v : String) :
    (set_setting s k v).cycle_plans = s.cycle_plans := by
  rw [set_setting]
  split <;> rfl

/-- With unique plan-row ids, rows are determined by their id. -/
theorem eq_of_mem_of_nodup_ids (s : Store)
    (hids : (s.cycle_plans.map (fun r => r.id)).Nodup)
    (r1 r2 : CyclePlan) (h1 : r1 ∈ s.cycle_plans) (h2 : r2 ∈ s.cycle_plans)
    (h : r1.id = r2.id) : r1 = r2 :=
  List.inj_on_of_nodup_map hids h1 h2 h

/-! ## Properties of the per-category assignment fold -/

section AssignFold

variable (category : String) (bedHist : ℕ → List HistEntry)
variable (ssp sfam : ℕ → List ℕ) (cat_beds : List PlanRow)

/-- The assigned set only grows during the fold. -/
theorem assignFold_assigned_mono (targets : List (ℕ × ℤ))
    (acc : List ℕ × List (ℕ × Option ℕ)) (x : ℕ) (hx : x ∈ acc.1) :
    x ∈ ((targets.foldl
      (assignFoldStep category bedHist ssp sfam cat_beds) acc).1) := by
  induction targets generalizing acc with
  | nil => exact hx
  | cons t ts ih =>
      rw [List.foldl_cons]
      apply ih
      rw [assignFoldStep]
      split
      · exact hx
      · exact List.mem_append_left _ hx

/-- Every scored candidate comes from a not-yet-assigned bed of the
category. -/
theorem mem_assignScored (A : List ℕ) (t1 : ℕ) (x : ℤ × ℕ × ℕ)
    (hx : x ∈ cat_beds.filterMap (fun b =>
      if b.sub_bed_id ∈ A then none
      else some (scoreBed category (bedHist b.sub_bed_id) t1 (ssp t1)
        (sfam t1), b.sub_bed_id, b.plan_id))) :
    ∃ b ∈ cat_beds, x.2.1 = b.sub_bed_id ∧ x.2.2 = b.plan_id ∧
      b.sub_bed_id ∉ A := by
  obtain ⟨b, hb, hf⟩ := List.mem_filterMap.mp hx
  by_cases hm : b.sub_bed_id ∈ A
  · rw [if_pos hm] at hf
    exact absurd hf (by simp)
  · rw [if_neg hm] at hf
    have hxval := Option.some.inj hf
    refine ⟨b, hb, ?_, ?_, hm⟩
    · rw [← hxval]
    · rw [← hxval]

/-- The sub-bed ids of the scored candidates are those of the unassigned
beds of the category, in bed order. -/
theorem assignScored_sids (A : List ℕ) (t1 : ℕ) :
    (cat_beds.filterMap (fun b =>
      if b.sub_bed_id ∈ A then none
      else some (scoreBed category (bedHist b.sub_bed_id) t1 (ssp t1)
        (sfam t1), b.sub_bed_id, b.plan_id))).map (fun x => x.2.1)
    = (cat_beds.filter (fun b => decide (b.sub_bed_id ∉ A))).map
        (fun b => b.sub_bed_id) := by
  induction cat_beds with
  | nil => rfl
  | cons b bs ih =>
      by_cases hm : b.sub_bed_id ∈ A
      · simp only [List.filterMap_cons, if_pos hm, List.filter_cons]
        rw [if_neg (by simpa using hm)]
        exact ih
      · simp only [List.filterMap_cons, if_neg hm, List.filter_cons]
        rw [if_pos (by simpa using hm)]
        simp only [List.map_cons]
        rw [ih]

end AssignFold

/-- The scored-candidate list of one step of the assignment loop
(the `scored_beds` list of rotation_engine.py 439-474). -/
def scoredList (category : String) (bedHist : ℕ → List HistEntry)
    (ssp sfam : ℕ → List ℕ) (cat_beds : List PlanRow) (A : List ℕ)
    (t1 : ℕ) : List (ℤ × ℕ × ℕ) :=
  cat_beds.filterMap (fun b =>
    if b.sub_bed_id ∈ A then none
    else some (scoreBed category (bedHist b.sub_bed_id) t1 (ssp t1) (sfam t1),
      b.sub_bed_id, b.plan_id))

section AssignFold2

variable (category : String) (bedHist : ℕ → List HistEntry)
variable (ssp sfam : ℕ → List ℕ) (cat_beds : List PlanRow)

/-- One positive-target step of the loop, written out without local
bindings. -/
theorem assignFoldStep_pos (acc : List ℕ × List (ℕ × Option ℕ)) (t : ℕ × ℤ)
    (ht : ¬ t.2 ≤ 0) :
    assignFoldStep category bedHist ssp sfam cat_beds acc t =
      (acc.1 ++ ((List.insertionSort scoredGe
          (scoredList category bedHist ssp sfam cat_beds acc.1 t.1)).take
            (min t.2.toNat (List.insertionSort scoredGe
              (scoredList category bedHist ssp sfam cat_beds
                acc.1 t.1)).length)).map (fun x => x.2.1),
        acc.2 ++ ((List.insertionSort scoredGe
          (scoredList category bedHist ssp sfam cat_beds acc.1 t.1)).take
            (min t.2.toNat (List.insertionSort scoredGe
              (scoredList category bedHist ssp sfam cat_beds
                acc.1 t.1)).length)).map (fun x => (x.2.2, some t.1))) := by
  rw [assignFoldStep, if_neg ht]
  rfl

/-- The sub-bed ids of the scored list, stated through `scoredList`. -/
theorem scoredList_sids (A : List ℕ) (t1 : ℕ) :
    (scoredList category bedHist ssp sfam cat_beds A t1).map
        (fun x => x.2.1)
    = (cat_beds.filter (fun b => decide (b.sub_bed_id ∉ A))).map
        (fun b => b.sub_bed_id) :=
  assignScored_sids category bedHist ssp sfam cat_beds A t1

/-- If the category beds have pairwise distinct sub-bed ids, the assigned
list stays duplicate-free: a bed assigned to one crop is never reused by a
later crop of the same category. -/
theorem assignFold_nodup
    (hn : (cat_beds.map (fun b => b.sub_bed_id)).Nodup) :
    ∀ (targets : List (ℕ × ℤ)) (acc : List ℕ × List (ℕ × Option ℕ)),
      acc.1.Nodup →
      ((targets.foldl
        (assignFoldStep category bedHist ssp sfam cat_beds) acc).1).Nodup := by
  intro targets
  induction targets with
  | nil => exact fun acc h => h
  | cons t ts ih =>
      intro acc hacc
      rw [List.foldl_cons]
      apply ih
      by_cases ht : t.2 ≤ 0
      · rw [assignFoldStep, if_pos ht]
        exact hacc
      · rw [assignFoldStep_pos category bedHist ssp sfam cat_beds acc t ht]
        have hsids : ((scoredList category bedHist ssp sfam cat_beds
            acc.1 t.1).map (fun x => x.2.1)).Nodup := by
          rw [scoredList_sids category bedHist ssp sfam cat_beds acc.1 t.1]
          exact hn.sublist ((List.filter_sublist _).map _)
        have hsorted_sids : ((List.insertionSort scoredGe
            (scoredList category bedHist ssp sfam cat_beds acc.1 t.1)).map
              (fun x => x.2.1)).Nodup :=
          ((List.perm_insertionSort scoredGe _).map _).nodup_iff.mpr hsids
        apply List.nodup_append.mpr
        refine ⟨hacc, ?_, ?_⟩
        · exact hsorted_sids.sublist ((List.take_sublist _ _).map _)
        · intro a ha1 ha2
          have ha3 := ((List.take_sublist _ _).map
            (fun x : ℤ × ℕ × ℕ => x.2.1)).subset ha2
          have ha4 := ((List.perm_insertionSort scoredGe _).map
            (fun x : ℤ × ℕ × ℕ => x.2.1)).mem_iff.mp ha3
          rw [scoredList_sids category bedHist ssp sfam cat_beds
            acc.1 t.1] at ha4
          obtain ⟨b, hbmem, hba⟩ := List.mem_map.mp ha4
          have hdec := List.of_mem_filter hbmem
          have hbA : b.sub_bed_id ∉ acc.1 := of_decide_eq_true hdec
          rw [← hba] at ha1
          exact hbA ha1

/-- Every update the fold appends targets the plan row of a category bed
whose sub-bed ends up in the assigned list. -/
theorem assignFold_updates :
    ∀ (targets : List (ℕ × ℤ)) (acc : List ℕ × List (ℕ × Option ℕ)),
      ∀ u ∈ (targets.foldl
          (assignFoldStep category bedHist ssp sfam cat_beds) acc).2,
        u ∈ acc.2 ∨ ∃ b ∈ cat_beds, u.1 = b.plan_id ∧
          b.sub_bed_id ∈ ((targets.foldl
            (assignFoldStep category bedHist ssp sfam cat_beds) acc).1) := by
  intro targets
  induction targets with
  | nil => exact fun acc u hu => Or.inl hu
  | cons t ts ih =>
      intro acc u hu
      rw [List.foldl_cons] at hu ⊢
      rcases ih (assignFoldStep category bedHist ssp sfam cat_beds acc t) u hu
        with h | ⟨b, hb, hub, hbs⟩
      · by_cases ht : t.2 ≤ 0
        · rw [assignFoldStep, if_pos ht] at h
          exact Or.inl h
        · rw [assignFoldStep_pos category bedHist ssp sfam cat_beds acc t ht]
            at h
          rcases List.mem_append.mp h with h2 | h2
          · exact Or.inl h2
          · right
            obtain ⟨x, hx, hux⟩ := List.mem_map.mp h2
            have hxsorted := (List.take_sublist _ _).subset hx
            have hxscored :=
              (List.perm_insertionSort scoredGe _).mem_iff.mp hxsorted
            obtain ⟨b, hb, hxb1, hxb2, hbA⟩ := mem_assignScored category
              bedHist ssp sfam cat_beds acc.1 t.1 x hxscored
            refine ⟨b, hb, ?_, ?_⟩
            · rw [← hux]
              exact hxb2
            · apply assignFold_assigned_mono
              rw [assignFoldStep_pos category bedHist ssp sfam cat_beds
                acc t ht]
              apply List.mem_append_right
              exact List.mem_map.mpr ⟨x, hx, hxb1⟩
      · exact Or.inr ⟨b, hb, hub, hbs⟩

end AssignFold2

/-- Every update a category issues targets a plan row of that category. -/
theorem mem_categoryUpdates (category : String)
    (bedHist : ℕ → List HistEntry) (ssp sfam : ℕ → List ℕ)
    (plans : List PlanRow) (profiles : List ProfRow) (u : ℕ × Option ℕ)
    (hu : u ∈ categoryUpdates category bedHist ssp sfam plans profiles) :
    ∃ b ∈ plans.filter (fun p => p.planned_category = some category),
      u.1 = b.plan_id := by
  rw [categoryUpdates] at hu
  dsimp only at hu
  split at hu
  · exact absurd hu (List.not_mem_nil u)
  · split at hu
    · obtain ⟨b, hb, hub⟩ := List.mem_map.mp hu
      exact ⟨b, hb, by rw [← hub]⟩
    · rcases List.mem_append.mp hu with h | h
      · obtain ⟨b, hb, hub⟩ := List.mem_map.mp h
        exact ⟨b, hb, by rw [← hub]⟩
      · rcases assignFold_updates category bedHist ssp sfam _ _ _ u h
          with h2 | ⟨b, hb, hub, _⟩
        · exact absurd h2 (List.not_mem_nil u)
        · exact ⟨b, hb, hub⟩

/-- Every update `assign_crops` issues targets an existing plan row of the
requested (garden, cycle) whose sub-bed exists and is not a reserve. -/
theorem mem_assignUpdates (s : Store) (g : ℕ) (c : String)
    (u : ℕ × Option ℕ) (hu : u ∈ assignUpdates s g c) :
    ∃ cp ∈ s.cycle_plans, u.1 = cp.id ∧ cp.garden_id = g ∧ cp.cycle = c ∧
      ∃ sb ∈ s.sub_beds, sb.id = cp.sub_bed_id ∧ sb.is_reserve = false := by
  rw [assignUpdates] at hu
  rcases mem_foldl_append _ _ _ u hu with h | ⟨category, _, hcat⟩
  · exact absurd h (List.not_mem_nil u)
  · obtain ⟨b, hb, hub⟩ := mem_categoryUpdates category (bedHistory s g c)
      (same_species_crops s) (same_family_crops s) (plansQuery s g c)
      (profilesQuery s g c) u hcat
    have hbq : b ∈ plansQuery s g c := (List.filter_sublist _).subset hb
    obtain ⟨cp, hcp, hg, hc, hbid, hbsid, sb, hsb, hsbid, hres⟩ :=
      mem_plansQuery s g c b hbq
    exact ⟨cp, hcp, hub.trans hbid, hg, hc, sb, hsb, hsbid, hres⟩

/-! ## C7: explicit failure results, no partial state -/

/-- `generate_next_cycle` either fails with the input store untouched, or
succeeds with no error. -/
theorem generate_shape (s : Store) (g : ℕ) :
    (∃ e, generate_next_cycle s g = (s, none, some e)) ∨
    (∃ s2 nc, generate_next_cycle s g = (s2, some nc, none)) := by
  rw [generate_next_cycle]
  dsimp only
  split
  · exact Or.inl ⟨_, rfl⟩
  · split
    · exact Or.inl ⟨_, rfl⟩
    · split
      · exact Or.inl ⟨_, rfl⟩
      · split
        · exact Or.inl ⟨_, rfl⟩
        · split
          · exact Or.inl ⟨_, rfl⟩
          · split
            · exact Or.inl ⟨_, rfl⟩
            · exact Or.inr ⟨_, _, rfl⟩

/-- C7.  Both public operations return their errors as explicit results
rather than raising: `generate_next_cycle` returns an error message string
with no cycle id, and whenever it fails the store is exactly the input
store — no partial rows are observable; on success it reports no error.
`assign_crops` returns the explicit `(store, ok, error)` triple with
`ok = True` and `error = None` (its only failure path is a storage
exception the store model cannot raise). -/
theorem C7_explicit_errors (s : Store) (g : ℕ) (c : String) :
    ((generate_next_cycle s g).2.2 ≠ none →
      (generate_next_cycle s g).1 = s ∧
      (generate_next_cycle s g).2.1 = none) ∧
    ((generate_next_cycle s g).2.2 = none →
      (generate_next_cycle s g).2.1 ≠ none) ∧
    ((assign_crops s g c).2.1 = true ∧ (assign_crops s g c).2.2 = none) := by
  rcases generate_shape s g with ⟨e, he⟩ | ⟨s2, nc, he⟩ <;> rw [he]
  · exact ⟨fun _ => ⟨rfl, rfl⟩, fun h => absurd h (by simp), rfl, rfl⟩
  · exact ⟨fun h => absurd rfl h, fun _ => by simp, rfl, rfl⟩

/-- C7, witness: on a store with no previous cycle, `generate_next_cycle`
fails explicitly (an error message, no cycle id) and leaves the store
untouched; `assign_crops` still reports explicit success. -/
theorem C7_witness :
    (generate_next_cycle ⟨[], [], [], [], [], [], []⟩ 1).2.2 ≠ none ∧
    (generate_next_cycle ⟨[], [], [], [], [], [], []⟩ 1).1
      = ⟨[], [], [], [], [], [], []⟩ ∧
    (generate_next_cycle ⟨[], [], [], [], [], [], []⟩ 1).2.1 = none ∧
    ((assign_crops ⟨[], [], [], [], [], [], []⟩ 1 "2026A").2.1 = true ∧
      (assign_crops ⟨[], [], [], [], [], [], []⟩ 1 "2026A").2.2 = none) :=
  ⟨by decide,
    ((C7_explicit_errors ⟨[], [], [], [], [], [], []⟩ 1 "2026A").1
      (by decide)).1,
    ((C7_explicit_errors ⟨[], [], [], [], [], [], []⟩ 1 "2026A").1
      (by decide)).2,
    (C7_explicit_errors ⟨[], [], [], [], [], [], []⟩ 1 "2026A").2.2⟩

/-! ## C8: reserve sub-beds are never touched -/

/-- `generate_next_cycle` only ever appends rows, and every appended row
belongs to an existing non-reserve sub-bed. -/
theorem generate_new_rows (s : Store) (g : ℕ) :
    ∃ new, (generate_next_cycle s g).1.cycle_plans = s.cycle_plans ++ new ∧
      ∀ r ∈ new, ∃ sb ∈ s.sub_beds, sb.id = r.sub_bed_id ∧
        sb.is_reserve = false := by
  rw [generate_next_cycle]
  dsimp only
  split
  · exact ⟨[], by simp, by simp⟩
  · split
    · exact ⟨[], by simp, by simp⟩
    · split
      · exact ⟨[], by simp, by simp⟩
      · split
        · exact ⟨[], by simp, by simp⟩
        · split
          · exact ⟨[], by simp, by simp⟩
          · split
            · exact ⟨[], by simp, by simp⟩
            · simp only [set_setting_cycle_plans]
              refine ⟨_, rfl, ?_⟩
              intro r hr
              obtain ⟨⟨i, pp⟩, hip, hf⟩ := List.mem_map.mp hr
              obtain ⟨hlt, hpe⟩ := List.mem_enum hip
              rw [hpe] at hf
              have hppf := List.getElem_mem hlt
              have hres0 := List.of_mem_filter hppf
              have hres := of_decide_eq_true hres0
              have hppq := (List.filter_sublist _).subset hppf
              obtain ⟨sb, hsb, hsbid, hsbres⟩ :=
                mem_prevPlansQuery _ _ _ _ hppq
              refine ⟨sb, hsb, ?_, hsbres.trans hres⟩
              rw [← hf]
              exact hsbid

/-- C8.  No CyclePlan row is ever created or modified for a reserve
sub-bed: `generate_next_cycle` only appends rows of existing non-reserve
sub-beds (on failure it appends nothing), and — given unique plan-row
ids — every row `assign_crops` changes belongs to an existing non-reserve
sub-bed. -/
theorem C8_reserve_exclusion (s : Store) (g : ℕ) (c : String)
    (hids : (s.cycle_plans.map (fun r => r.id)).Nodup) :
    (∃ new, (generate_next_cycle s g).1.cycle_plans = s.cycle_plans ++ new ∧
      ∀ r ∈ new, ∃ sb ∈ s.sub_beds, sb.id = r.sub_bed_id ∧
        sb.is_reserve = false) ∧
    ((assign_crops s g c).1.cycle_plans
      = s.cycle_plans.map (fun r => applyUpd r (assignUpdates s g c))) ∧
    (∀ r ∈ s.cycle_plans, applyUpd r (assignUpdates s g c) ≠ r →
      ∃ sb ∈ s.sub_beds, sb.id = r.sub_bed_id ∧ sb.is_reserve = false) := by
  refine ⟨generate_new_rows s g, rfl, ?_⟩
  intro r hr hne
  have hex : ∃ u ∈ assignUpdates s g c, u.1 = r.id := by
    by_contra hno
    push_neg at hno
    exact hne (applyUpd_of_no_match r _ hno)
  obtain ⟨u, hu, hur⟩ := hex
  obtain ⟨cp, hcp, hucp, hg, hc2, sb, hsb, hsbid, hres⟩ :=
    mem_assignUpdates s g c u hu
  have hcpr : cp = r := eq_of_mem_of_nodup_ids s hids cp r hcp hr
    (hucp.symm.trans hur)
  rw [hcpr] at hsbid
  exact ⟨sb, hsb, hsbid, hres⟩

/-- A two-bed garden whose second sub-bed is a reserve. -/
def c8Store : Store :=
  { sub_beds := [⟨1, 1, 1, 1, false⟩, ⟨2, 1, 2, 1, true⟩],
    cycle_plans :=
      [⟨1, 1, 1, "2026A", some "Leg", none, none, none, false⟩,
       ⟨2, 2, 1, "2026A", some "Leg", none, none, none, false⟩],
    crops := [], plants := [], distribution_profiles := [],
    rotation_sequence := [⟨1, "Leg"⟩],
    settings := [("cycles_per_year", "2")] }

/-- C8, witness: on the two-bed garden with a reserve bed, the generated
cycle appends only rows of non-reserve sub-beds. -/
theorem C8_witness :
    ((c8Store.cycle_plans.map (fun r => r.id)).Nodup) ∧
    (∃ new, (generate_next_cycle c8Store 1).1.cycle_plans
        = c8Store.cycle_plans ++ new ∧
      ∀ r ∈ new, ∃ sb ∈ c8Store.sub_beds, sb.id = r.sub_bed_id ∧
        sb.is_reserve = false) :=
  ⟨by decide, (C8_reserve_exclusion c8Store 1 "2026A" (by decide)).1⟩

/-! ## C6: ordering within a category -/

instance : IsTotal (ℕ × ℤ) targetGe :=
  ⟨fun a b => le_total b.2 a.2⟩

instance : IsTrans (ℕ × ℤ) targetGe :=
  ⟨fun _ _ _ hab hbc => le_trans hbc hab⟩

instance : IsTotal (ℤ × ℕ × ℕ) scoredGe := by
  constructor
  intro a b
  unfold scoredGe
  rcases lt_trichotomy a.1 b.1 with h | h | h
  · exact Or.inr (Or.inl h)
  · rcases le_total a.2.1 b.2.1 with h2 | h2
    · exact Or.inl (Or.inr ⟨h, h2⟩)
    · exact Or.inr (Or.inr ⟨h.symm, h2⟩)
  · exact Or.inl (Or.inl h)

instance : IsTrans (ℤ × ℕ × ℕ) scoredGe := by
  constructor
  intro a b c hab hbc
  unfold scoredGe at hab hbc ⊢
  rcases hab with h | ⟨h1, h2⟩ <;> rcases hbc with h3 | ⟨h3, h4⟩
  · exact Or.inl (h3.trans h)
  · exact Or.inl (by omega)
  · exact Or.inl (by omega)
  · exact Or.inr ⟨h1.trans h3, h2.trans h4⟩

/-- Filtering one count class through `orderedInsert targetGe` either
prepends the inserted pair (when it belongs to the class: every skipped
element has a strictly larger count, hence a different count) or leaves
the class untouched. -/
theorem filter_orderedInsert_targetGe (k : ℤ) (x : ℕ × ℤ)
    (l : List (ℕ × ℤ)) :
    (List.orderedInsert targetGe x l).filter (fun t => t.2 = k)
      = if x.2 = k then x :: l.filter (fun t => t.2 = k)
        else l.filter (fun t => t.2 = k) := by
  rw [List.orderedInsert_eq_take_drop, List.filter_append]
  by_cases hx : x.2 = k
  · rw [if_pos hx]
    have htake : (l.takeWhile (fun b => decide ¬ targetGe x b)).filter
        (fun t => t.2 = k) = [] := by
      rw [List.filter_eq_nil_iff]
      intro t ht h3
      have h1 := List.mem_takeWhile_imp ht
      have h2 : ¬ targetGe x t := of_decide_eq_true h1
      have ht2 : t.2 = k := of_decide_eq_true h3
      exact h2 (le_of_eq (ht2.trans hx.symm))
    rw [htake, List.filter_cons, if_pos (by simpa using hx), List.nil_append]
    congr 1
    conv_rhs => rw [← List.takeWhile_append_dropWhile
      (fun b => decide ¬ targetGe x b) l]
    rw [List.filter_append, htake, List.nil_append]
  · rw [if_neg hx, List.filter_cons, if_neg (by simpa using hx)]
    conv_rhs => rw [← List.takeWhile_append_dropWhile
      (fun b => decide ¬ targetGe x b) l]
    rw [List.filter_append]

/-- The descending-count sort is stable: within one count class the
original (profile) order is preserved. -/
theorem filter_insertionSort_targetGe (k : ℤ) (l : List (ℕ × ℤ)) :
    (List.insertionSort targetGe l).filter (fun t => t.2 = k)
      = l.filter (fun t => t.2 = k) := by
  induction l with
  | nil => rfl
  | cons x xs ih =>
      rw [show List.insertionSort targetGe (x :: xs)
          = List.orderedInsert targetGe x (List.insertionSort targetGe xs)
        from rfl]
      rw [filter_orderedInsert_targetGe k x (List.insertionSort targetGe xs)]
      rw [List.filter_cons]
      by_cases hx : x.2 = k
      · rw [if_pos hx, if_pos (by simpa using hx), ih]
      · rw [if_neg hx, if_neg (by simpa using hx), ih]

/-- The clearing updates always contain a `NULL` update for each category
bed, and nothing else. -/
theorem clears_find (cat_beds : List PlanRow) (b : PlanRow)
    (hb : b ∈ cat_beds) (rid : ℕ) (hrid : rid = b.plan_id) :
    ∃ u, (cat_beds.map (fun q => (q.plan_id, (none : Option ℕ)))).reverse.find?
        (fun u => u.1 = rid) = some u ∧ u.2 = none := by
  cases hF : (cat_beds.map
      (fun q => (q.plan_id, (none : Option ℕ)))).reverse.find?
      (fun u => u.1 = rid) with
  | none =>
      rw [List.find?_eq_none] at hF
      have hmem : ((b.plan_id, (none : Option ℕ)))
          ∈ (cat_beds.map (fun q => (q.plan_id, (none : Option ℕ)))).reverse :=
        List.mem_reverse.mpr (List.mem_map.mpr ⟨b, hb, rfl⟩)
      exact absurd (by simp [hrid]) (hF _ hmem)
  | some u =>
      refine ⟨u, rfl, ?_⟩
      obtain ⟨q, _, hq⟩ := List.mem_map.mp
        (List.mem_reverse.mp (List.mem_of_find?_eq_some hF))
      rw [← hq]

/-- C6.  Within one category: crops are processed in descending order of
resolved count and the sort is stable, so ties keep the original profile
order; the candidate slots of each crop are sorted by score descending
with ties broken by ascending sub-bed id (a permutation of the scored
candidates); with distinct sub-bed ids a slot assigned to one crop is
never offered to a later crop (the assigned list stays duplicate-free);
and with distinct plan ids every category slot whose sub-bed is left
unassigned at the end keeps a NULL planned crop (its clearing update is
the last one that targets it). -/
theorem C6_within_category (category : String)
    (bedHist : ℕ → List HistEntry) (ssp sfam : ℕ → List ℕ)
    (plans : List PlanRow) (profiles : List ProfRow)
    (cat_beds : List PlanRow) (cat_profiles : List ProfRow)
    (hbeds : cat_beds
      = plans.filter (fun p => p.planned_category = some category))
    (hprofs : cat_profiles
      = profiles.filter (fun p => p.category = category)) :
    (sortedCropTargets cat_profiles cat_beds.length).Pairwise targetGe ∧
    (∀ k : ℤ, (sortedCropTargets cat_profiles cat_beds.length).filter
        (fun t => t.2 = k)
      = (cropTargets cat_profiles cat_beds.length).filter
          (fun t => t.2 = k)) ∧
    (∀ (A : List ℕ) (t1 : ℕ),
      (List.insertionSort scoredGe
        (scoredList category bedHist ssp sfam cat_beds A t1)).Pairwise
          scoredGe ∧
      (List.insertionSort scoredGe
        (scoredList category bedHist ssp sfam cat_beds A t1)).Perm
        (scoredList category bedHist ssp sfam cat_beds A t1)) ∧
    ((cat_beds.map (fun b => b.sub_bed_id)).Nodup →
      ∀ targets : List (ℕ × ℤ),
        ((targets.foldl (assignFoldStep category bedHist ssp sfam cat_beds)
          ([], [])).1).Nodup) ∧
    ((cat_beds.map (fun b => b.plan_id)).Nodup →
      ∀ b ∈ cat_beds, ∀ r : CyclePlan, r.id = b.plan_id →
        b.sub_bed_id ∉ ((sortedCropTargets cat_profiles
            cat_beds.length).foldl
          (assignFoldStep category bedHist ssp sfam cat_beds) ([], [])).1 →
        (applyUpd r (categoryUpdates category bedHist ssp sfam plans
          profiles)).planned_crop_id = none) := by
  subst hbeds hprofs
  refine ⟨List.sorted_insertionSort targetGe _,
    fun k => filter_insertionSort_targetGe k _,
    fun A t1 => ⟨List.sorted_insertionSort scoredGe _,
      List.perm_insertionSort scoredGe _⟩,
    fun hn targets => assignFold_nodup category bedHist ssp sfam _ hn
      targets ([], []) List.nodup_nil,
    ?_⟩
  intro hpn b hb r hrid hnotb
  have hbne : ¬ ((plans.filter
      (fun p => p.planned_category = some category)).isEmpty = true) :=
    fun h => (List.ne_nil_of_mem hb) (List.isEmpty_iff.mp h)
  rw [categoryUpdates]
  dsimp only
  rw [if_neg hbne]
  by_cases hpe : ((profiles.filter
      (fun p => p.category = category)).isEmpty = true)
  · rw [if_pos hpe, applyUpd_planned]
    obtain ⟨u, hF, hu2⟩ := clears_find _ b hb r.id hrid
    rw [hF]
    exact hu2
  · rw [if_neg hpe, applyUpd_planned, List.reverse_append,
      List.find?_append]
    have hnof : ((((sortedCropTargets
          (profiles.filter (fun p => p.category = category))
          (plans.filter
            (fun p => p.planned_category = some category)).length).foldl
        (assignFoldStep category bedHist ssp sfam
          (plans.filter (fun p => p.planned_category = some category)))
        ([], [])).2).reverse.find? (fun u => u.1 = r.id)) = none := by
      rw [List.find?_eq_none]
      intro u hu hpu
      have hu2 := List.mem_reverse.mp hu
      rcases assignFold_updates category bedHist ssp sfam
          (plans.filter (fun p => p.planned_category = some category))
          _ _ u hu2 with h0 | ⟨b2, hb2, hub2, hbs2⟩
      · exact absurd h0 (List.not_mem_nil u)
      · have hur : u.1 = r.id := of_decide_eq_true hpu
        have hb2b : b2 = b := List.inj_on_of_nodup_map hpn hb2 hb
          (hub2.symm.trans (hur.trans hrid))
        rw [hb2b] at hbs2
        exact hnotb hbs2
    rw [hnof, Option.none_or]
    obtain ⟨u, hF, hu2⟩ := clears_find _ b hb r.id hrid
    rw [hF]
    exact hu2

/-- C6, witness: two slots (sub-beds 10 and 20), one crop with a resolved
count of 1 — the ordering facts hold, no slot is reused, and the leftover
slot (sub-bed 20), whose plan row previously carried crop 5, ends with a
NULL planned crop. -/
theorem C6_witness :
    (([⟨1, 10, some "Leg", 1, 1⟩, ⟨2, 20, some "Leg", 1, 2⟩]
        : List PlanRow).map (fun b => b.sub_bed_id)).Nodup ∧
    (sortedCropTargets [⟨7, 0, "Leg", "A"⟩] 2).Pairwise targetGe ∧
    ((([(7, 1)] : List (ℕ × ℤ)).foldl
      (assignFoldStep "Leg" (fun _ => []) (fun _ => []) (fun _ => [])
        [⟨1, 10, some "Leg", 1, 1⟩, ⟨2, 20, some "Leg", 1, 2⟩])
      ([], [])).1).Nodup ∧
    (applyUpd ⟨2, 20, 1, "2026A", some "Leg", some 5, none, none, false⟩
      (categoryUpdates "Leg" (fun _ => []) (fun _ => []) (fun _ => [])
        [⟨1, 10, some "Leg", 1, 1⟩, ⟨2, 20, some "Leg", 1, 2⟩]
        [⟨7, 0, "Leg", "A"⟩])).planned_crop_id = none :=
  ⟨by decide,
    (C6_within_category "Leg" (fun _ => []) (fun _ => []) (fun _ => [])
      [⟨1, 10, some "Leg", 1, 1⟩, ⟨2, 20, some "Leg", 1, 2⟩]
      [⟨7, 0, "Leg", "A"⟩]
      [⟨1, 10, some "Leg", 1, 1⟩, ⟨2, 20, some "Leg", 1, 2⟩]
      [⟨7, 0, "Leg", "A"⟩] (by decide) (by decide)).1,
    (C6_within_category "Leg" (fun _ => []) (fun _ => []) (fun _ => [])
      [⟨1, 10, some "Leg", 1, 1⟩, ⟨2, 20, some "Leg", 1, 2⟩]
      [⟨7, 0, "Leg", "A"⟩]
      [⟨1, 10, some "Leg", 1, 1⟩, ⟨2, 20, some "Leg", 1, 2⟩]
      [⟨7, 0, "Leg", "A"⟩] (by decide) (by decide)).2.2.2.1 (by decide)
      [(7, 1)],
    (C6_within_category "Leg" (fun _ => []) (fun _ => []) (fun _ => [])
      [⟨1, 10, some "Leg", 1, 1⟩, ⟨2, 20, some "Leg", 1, 2⟩]
      [⟨7, 0, "Leg", "A"⟩]
      [⟨1, 10, some "Leg", 1, 1⟩, ⟨2, 20, some "Leg", 1, 2⟩]
      [⟨7, 0, "Leg", "A"⟩] (by decide) (by decide)).2.2.2.2 (by decide)
      ⟨2, 20, some "Leg", 1, 2⟩ (by decide)
      ⟨2, 20, 1, "2026A", some "Leg", some 5, none, none, false⟩ (by decide)
      (by decide)⟩

/-! ## C5: idempotent re-assignment -/

/-- The plans query only reads fields that updates never change, so it is
invariant under applying any update list. -/
theorem plansQuery_applyUpdates (s : Store) (us : List (ℕ × Option ℕ))
    (g : ℕ) (c : String) :
    plansQuery (applyUpdates s us) g c = plansQuery s g c := by
  rw [plansQuery, plansQuery]
  rw [show (applyUpdates s us).sub_beds = s.sub_beds from rfl,
    show (applyUpdates s us).cycle_plans
      = s.cycle_plans.map (fun r => applyUpd r us) from rfl,
    List.filterMap_map]
  congr 1
  apply List.filterMap_congr
  intro cp _
  obtain ⟨f1, f2, f3, f4, f5, f6, f7, f8⟩ := applyUpd_fields cp us
  dsimp only [Function.comp_apply]
  rw [f1, f2, f3, f4, f5]

/-- The distinct-cycles list only reads `garden_id` and `cycle`, both
untouched by updates. -/
theorem distinctCyclesDesc_applyUpdates (s : Store)
    (us : List (ℕ × Option ℕ)) (g : ℕ) :
    distinctCyclesDesc (applyUpdates s us) g = distinctCyclesDesc s g := by
  rw [distinctCyclesDesc, distinctCyclesDesc]
  rw [show (applyUpdates s us).cycle_plans
      = s.cycle_plans.map (fun r => applyUpd r us) from rfl]
  rw [List.filter_map, List.map_map]
  have hfc : ∀ cp ∈ s.cycle_plans,
      ((fun q : CyclePlan => decide (q.garden_id = g))
        ∘ (fun r => applyUpd r us)) cp
      = (fun q : CyclePlan => decide (q.garden_id = g)) cp := by
    intro cp _
    dsimp only [Function.comp_apply]
    rw [(applyUpd_fields cp us).2.2.1]
  rw [List.filter_congr hfc]
  have hmc : ∀ cp ∈ s.cycle_plans.filter
      (fun q : CyclePlan => decide (q.garden_id = g)),
      ((fun q : CyclePlan => q.cycle) ∘ (fun r => applyUpd r us)) cp
      = cp.cycle := by
    intro cp _
    dsimp only [Function.comp_apply]
    exact (applyUpd_fields cp us).2.2.2.1
  rw [List.map_congr_left hmc]

theorem pastCycles_applyUpdates (s : Store) (us : List (ℕ × Option ℕ))
    (g : ℕ) (c : String) :
    pastCycles (applyUpdates s us) g c = pastCycles s g c := by
  rw [pastCycles, pastCycles, distinctCyclesDesc_applyUpdates]

theorem distinctCyclesDesc_nodup (s : Store) (g : ℕ) :
    (distinctCyclesDesc s g).Nodup := by
  rw [distinctCyclesDesc]
  exact (List.perm_insertionSort cycleDescOrder _).nodup_iff.mpr
    (List.nodup_dedup _)

theorem not_mem_drop_succ_indexOf {α : Type} [DecidableEq α] (l : List α)
    (hl : l.Nodup) (a : α) : a ∉ l.drop (l.indexOf a + 1) := by
  intro hmem
  by_cases hal : a ∈ l
  · have hlt : l.indexOf a < l.length := List.indexOf_lt_length.mpr hal
    have hi : l.indexOf a < (l.take (l.indexOf a + 1)).length := by
      rw [List.length_take]
      omega
    have hmem2 := List.getElem_mem hi
    have he : (l.take (l.indexOf a + 1))[l.indexOf a] = a := by
      rw [List.getElem_take]
      exact List.getElem_indexOf hlt
    rw [he] at hmem2
    have hsplit := List.take_append_drop (l.indexOf a + 1) l
    rw [← hsplit] at hl
    obtain ⟨_, _, hdisj⟩ := List.nodup_append.mp hl
    exact hdisj hmem2 hmem
  · exact hal ((List.drop_subset _ _) hmem)

/-- The look-back window never contains the cycle being assigned. -/
theorem pastCycles_not_self (s : Store) (g : ℕ) (c : String) :
    c ∉ pastCycles s g c := by
  rw [pastCycles]
  split
  · intro hc
    exact not_mem_drop_succ_indexOf _ (distinctCyclesDesc_nodup s g) c
      ((List.take_sublist _ _).subset hc)
  · rename_i hmem
    intro hc
    exact hmem ((List.take_sublist _ _).subset hc)

/-- History rows of a strictly older cycle are untouched by the updates of
the current assignment (which target only rows of the assigned cycle),
provided plan-row ids are unique. -/
theorem historyRows_applyUpdates (s : Store) (g : ℕ) (c p : String)
    (hids : (s.cycle_plans.map (fun r => r.id)).Nodup) (hp : p ≠ c) :
    historyRows (applyUpdates s (assignUpdates s g c)) g p
      = historyRows s g p := by
  rw [historyRows, historyRows]
  rw [show (applyUpdates s (assignUpdates s g c)).cycle_plans
      = s.cycle_plans.map (fun r => applyUpd r (assignUpdates s g c))
    from rfl]
  rw [List.filter_map]
  have hfc : ∀ cp ∈ s.cycle_plans,
      ((fun q : CyclePlan => decide (q.garden_id = g ∧ q.cycle = p))
        ∘ (fun r => applyUpd r (assignUpdates s g c))) cp
      = (fun q : CyclePlan => decide (q.garden_id = g ∧ q.cycle = p)) cp := by
    intro cp _
    dsimp only [Function.comp_apply]
    rw [(applyUpd_fields cp _).2.2.1, (applyUpd_fields cp _).2.2.2.1]
  rw [List.filter_congr hfc]
  have hid : ∀ q ∈ s.cycle_plans.filter
      (fun q : CyclePlan => decide (q.garden_id = g ∧ q.cycle = p)),
      applyUpd q (assignUpdates s g c) = q := by
    intro q hq
    apply applyUpd_of_no_match
    intro u hu hne
    obtain ⟨cp, hcp, hucp, hg2, hc2, _⟩ := mem_assignUpdates s g c u hu
    have hq1 := List.mem_filter.mp hq
    have hqc : q.cycle = p := (of_decide_eq_true hq1.2).2
    have heq : cp = q := eq_of_mem_of_nodup_ids s hids cp q hcp hq1.1
      (hucp.symm.trans hne)
    rw [heq] at hc2
    exact hp (hqc.symm.trans hc2)
  exact (List.map_congr_left hid).trans (List.map_id _)

theorem bedHistory_applyUpdates (s : Store) (g : ℕ) (c : String)
    (hids : (s.cycle_plans.map (fun r => r.id)).Nodup) :
    bedHistory (applyUpdates s (assignUpdates s g c)) g c
      = bedHistory s g c := by
  funext sid
  rw [bedHistory, bedHistory, pastCycles_applyUpdates,
    foldl_append_eq_join, foldl_append_eq_join]
  congr 1
  congr 1
  apply List.map_congr_left
  intro ip hip
  obtain ⟨i, p⟩ := ip
  obtain ⟨hlt, hpe⟩ := List.mem_enum hip
  have hpmem : p ∈ pastCycles s g c := by
    rw [hpe]
    exact List.getElem_mem hlt
  have hpc : p ≠ c := fun h => pastCycles_not_self s g c (h ▸ hpmem)
  rw [historyRows_applyUpdates s g c p hids hpc]

/-- Re-running the assignment reads back exactly the same inputs and hence
issues exactly the same updates. -/
theorem assignUpdates_applyUpdates (s : Store) (g : ℕ) (c : String)
    (hids : (s.cycle_plans.map (fun r => r.id)).Nodup) :
    assignUpdates (applyUpdates s (assignUpdates s g c)) g c
      = assignUpdates s g c := by
  have h1 : rotationCategories (applyUpdates s (assignUpdates s g c))
      = rotationCategories s := rfl
  have h2 := bedHistory_applyUpdates s g c hids
  have h3 := plansQuery_applyUpdates s (assignUpdates s g c) g c
  have h4 : profilesQuery (applyUpdates s (assignUpdates s g c)) g c
      = profilesQuery s g c := rfl
  have h5 : same_species_crops (applyUpdates s (assignUpdates s g c))
      = same_species_crops s := rfl
  have h6 : same_family_crops (applyUpdates s (assignUpdates s g c))
      = same_family_crops s := rfl
  conv_lhs => rw [assignUpdates, h1, h2, h3, h4, h5, h6]
  rw [assignUpdates]

theorem applyUpdates_idem (s : Store) (us : List (ℕ × Option ℕ)) :
    applyUpdates (applyUpdates s us) us = applyUpdates s us := by
  cases s with
  | mk sb cp cr pl dp rs st =>
      simp only [applyUpdates, List.map_map]
      congr 1
      apply List.map_congr_left
      intro r _
      exact applyUpd_idem r us

/-- A one-garden store with `n` non-reserve sub-beds, one cycle "2026A"
whose plan rows are all in category "Leg", two crops and a two-crop
distribution profile (p1/p2 percent). -/
def mkStore (n : ℕ) (p1 p2 : ℚ) : Store where
  sub_beds := (List.range n).map (fun i =>
    { id := i + 1, garden_id := 1, bed_number := i + 1,
      sub_bed_position := 1, is_reserve := false })
  cycle_plans := (List.range n).map (fun i =>
    { id := i + 1, sub_bed_id := i + 1, garden_id := 1, cycle := "2026A",
      planned_category := some "Leg", planned_crop_id := none,
      actual_category := none, actual_crop_id := none,
      is_override := false })
  crops := [{ id := 1, crop_name := "A", category := "Leg", family := none,
              plant_id := none },
            { id := 2, crop_name := "B", category := "Leg", family := none,
              plant_id := none }]
  plants := []
  distribution_profiles := [⟨1, "2026A", 1, p1⟩, ⟨1, "2026A", 2, p2⟩]
  rotation_sequence := [⟨1, "Leg"⟩]
  settings := []

set_option maxRecDepth 100000 in
/-- C5.  With unique plan-row ids, re-running `assign_crops` on the store
it just produced is a no-op: the second run reads back exactly the same
queries (updates never touch the fields the queries read, and the history
look-back window never contains the assigned cycle), so it issues the
same updates, and re-applying them changes nothing — each category clears
its slots before assigning, so no stale assignment survives.  In
particular, assigning 100 slots at a 50/50 profile and re-assigning after
the profile changes to 20/80 yields exactly 20 and 80 slots. -/
theorem C5_idempotent_reassignment :
    (∀ (s : Store) (g : ℕ) (c : String),
      (s.cycle_plans.map (fun r => r.id)).Nodup →
      assign_crops (assign_crops s g c).1 g c
        = ((assign_crops s g c).1, true, none)) ∧
    ((((assign_crops ({ (assign_crops (mkStore 100 50 50) 1 "2026A").1 with
        distribution_profiles :=
          [⟨1, "2026A", 1, 20⟩, ⟨1, "2026A", 2, 80⟩] })
      1 "2026A").1.cycle_plans.filter
      (fun cp => cp.planned_crop_id = some 1)).length = 20) ∧
    (((assign_crops ({ (assign_crops (mkStore 100 50 50) 1 "2026A").1 with
        distribution_profiles :=
          [⟨1, "2026A", 1, 20⟩, ⟨1, "2026A", 2, 80⟩] })
      1 "2026A").1.cycle_plans.filter
      (fun cp => cp.planned_crop_id = some 2)).length = 80)) := by
  refine ⟨?_, by decide, by decide⟩
  intro s g c hids
  show (applyUpdates (applyUpdates s (assignUpdates s g c))
      (assignUpdates (applyUpdates s (assignUpdates s g c)) g c),
    true, none)
    = (applyUpdates s (assignUpdates s g c), true, none)
  rw [assignUpdates_applyUpdates s g c hids, applyUpdates_idem]

/-- C5, witness: a two-bed instance of the store family — re-running the
assignment returns the committed store unchanged. -/
theorem C5_witness :
    ((mkStore 2 50 50).cycle_plans.map (fun r => r.id)).Nodup ∧
    assign_crops (assign_crops (mkStore 2 50 50) 1 "2026A").1 1 "2026A"
      = ((assign_crops (mkStore 2 50 50) 1 "2026A").1, true, none) :=
  ⟨by decide, (C5_idempotent_reassignment).1 (mkStore 2 50 50) 1 "2026A"
    (by decide)⟩

end CropRotation
